import Mathlib

/-!
Verification of the neartalk proximity-chat server core.

This file shallowly embeds the Go source of the repository into Lean:
pure functions become Lean functions over exact rationals and integers,
the Redis-backed state becomes explicit state records, and fallible code
returns Except or Option.  Machine floats on the geohash path are modelled
by exact rationals: every float operation performed there (halving of
dyadic interval bounds, comparisons) is exact in IEEE double for the
precisions in use, so the rational model is faithful.  Transcendental
float code (the Haversine formula) is kept abstract as a distance oracle
parameter.  All definitions are written to be executable so concrete runs
can be checked by the kernel.
-/

set_option maxHeartbeats 1000000
set_option maxRecDepth 100000

unseal Rat.add Rat.mul Rat.inv Rat.sub

namespace Location

/-- Base-32 alphabet of the geohash codec, constant base32 in geohash.go. -/
def base32 : List Char := "0123456789bcdefghjkmnpqrstuvwxyz".toList

/-- Latitude and longitude bounds threaded through Encode and Decode in
geohash.go.  Decode returns exactly these four values. -/
structure GeoBox where
  latMin : ℚ
  latMax : ℚ
  lonMin : ℚ
  lonMax : ℚ
deriving DecidableEq, Repr

/-- The initial bounds used by both Encode and Decode in geohash.go. -/
def worldBox : GeoBox := ⟨-90, 90, -180, 180⟩

/-- The point-in-box predicate used to state the round-trip law. -/
def GeoBox.contains (b : GeoBox) (lat lon : ℚ) : Prop :=
  b.latMin ≤ lat ∧ lat ≤ b.latMax ∧ b.lonMin ≤ lon ∧ lon ≤ b.lonMax

instance (b : GeoBox) (lat lon : ℚ) : Decidable (b.contains lat lon) := by
  unfold GeoBox.contains; infer_instance

/-- One loop iteration of Encode in geohash.go: on an even bit the
longitude interval is halved, otherwise the latitude interval; the
returned Bool is the bit that the source ors into the character value. -/
def encBit (lat lon : ℚ) (evenBit : Bool) (b : GeoBox) : Bool × GeoBox :=
  if evenBit then
    let mid := (b.lonMin + b.lonMax) / 2
    if lon > mid then (true, { b with lonMin := mid }) else (false, { b with lonMax := mid })
  else
    let mid := (b.latMin + b.latMax) / 2
    if lat > mid then (true, { b with latMin := mid }) else (false, { b with latMax := mid })

/-- The character value accumulated by Encode: bit i is ored in as
1 shifted left by (4 - bit), so the first produced bit is the most
significant of the five. -/
def chVal (b0 b1 b2 b3 b4 : Bool) : ℕ :=
  (cond b0 16 0) + (cond b1 8 0) + (cond b2 4 0) + (cond b3 2 0) + (cond b4 1 0)

/-- Five consecutive loop iterations of Encode in geohash.go, producing
one output character; evenBit alternates at every bit and ends negated. -/
def encChar (lat lon : ℚ) (e : Bool) (b : GeoBox) : Char × Bool × GeoBox :=
  let p0 := encBit lat lon e b
  let p1 := encBit lat lon (!e) p0.2
  let p2 := encBit lat lon e p1.2
  let p3 := encBit lat lon (!e) p2.2
  let p4 := encBit lat lon e p3.2
  (base32.getD (chVal p0.1 p1.1 p2.1 p3.1 p4.1) ' ', (!e, p4.2))

/-- The Encode loop of geohash.go, one recursion step per output
character; the source loops until the accumulated string reaches the
requested precision, five bits per character. -/
def encodeAux (lat lon : ℚ) : ℕ → Bool → GeoBox → List Char
  | 0, _, _ => []
  | n + 1, e, b =>
    let r := encChar lat lon e b
    r.1 :: encodeAux lat lon n r.2.1 r.2.2

/-- Encode of geohash.go: geohash of a coordinate at a given precision. -/
def Encode (latitude longitude : ℚ) (precision : ℕ) : List Char :=
  encodeAux latitude longitude precision true worldBox

/-- One bit of Decode in geohash.go: narrows the same interval that the
corresponding Encode iteration narrowed, steered by the extracted bit. -/
def decBit (bit : Bool) (evenBit : Bool) (b : GeoBox) : GeoBox :=
  if evenBit then
    let mid := (b.lonMin + b.lonMax) / 2
    if bit then { b with lonMin := mid } else { b with lonMax := mid }
  else
    let mid := (b.latMin + b.latMax) / 2
    if bit then { b with latMin := mid } else { b with latMax := mid }

/-- The inner bit loop of Decode in geohash.go for one character: bits
are extracted as (idx shifted right by i) anded with 1, for i = 4 down
to 0, with evenBit alternating. -/
def decChar (idx : ℕ) (e : Bool) (b : GeoBox) : Bool × GeoBox :=
  let s0 := decBit (decide ((idx >>> 4) &&& 1 = 1)) e b
  let s1 := decBit (decide ((idx >>> 3) &&& 1 = 1)) (!e) s0
  let s2 := decBit (decide ((idx >>> 2) &&& 1 = 1)) e s1
  let s3 := decBit (decide ((idx >>> 1) &&& 1 = 1)) (!e) s2
  let s4 := decBit (decide ((idx >>> 0) &&& 1 = 1)) e s3
  (!e, s4)

/-- The character loop of Decode in geohash.go.  A character absent from
the base-32 alphabet makes the source return the current bounds early,
modelled by stopping the recursion. -/
def decodeAux : List Char → Bool → GeoBox → GeoBox
  | [], _, b => b
  | c :: cs, e, b =>
    match base32.findIdx? (fun x => x == c) with
    | none => b
    | some idx =>
      let r := decChar idx e b
      decodeAux cs r.1 r.2

/-- Decode of geohash.go: bounding box of a geohash string. -/
def Decode (geohash : List Char) : GeoBox :=
  decodeAux geohash true worldBox

/-- The eight index offsets that GetNeighbors in geohash.go applies to
the base-32 index of the last character; the source comments call them
rough approximations. -/
def directions : List ℤ := [-1, 1, -5, 5, -6, 6, -4, 4]

/-- GetNeighbors of geohash.go: keeps the stem of the cell code and
replaces the last character by base-32 characters at offset indices,
dropping offsets that leave the alphabet range. -/
def GetNeighbors (geohash : List Char) : List (List Char) :=
  if geohash.length = 0 then []
  else
    let base := geohash.take (geohash.length - 1)
    let lastChar := geohash.getD (geohash.length - 1) ' '
    match base32.findIdx? (fun c => c == lastChar) with
    | none => []
    | some idx =>
      directions.filterMap (fun dir =>
        let newIdx : ℤ := (idx : ℤ) + dir
        if 0 ≤ newIdx ∧ newIdx < 32 then
          some (base ++ [base32.getD newIdx.toNat ' '])
        else none)

/-- Rounding half away from zero, the behaviour of math.Round used by
RoundToNearest50 in distance.go. -/
def goRound (x : ℚ) : ℤ :=
  if 0 ≤ x then ⌊x + 1 / 2⌋ else -⌊-x + 1 / 2⌋

/-- RoundToNearest50 of distance.go: distance rounded to the nearest
50 meters for privacy. -/
def RoundToNearest50 (distance : ℚ) : ℤ :=
  goRound (distance / 50) * 50

/-- A location record as stored at key location:id by service.go.  The
update timestamp is carried as an integer Unix time. -/
structure LocRecord where
  sessionID : String
  lat : ℚ
  lon : ℚ
  radius : ℤ
  geohash : List Char
  updatedAt : ℤ
deriving DecidableEq

/-- The slice of the Redis state the location service touches: location
records keyed by session id, and the geohash membership sets (SMembers
of a key absent from Redis is the empty list). -/
structure LocStore where
  locations : String → Option LocRecord
  cells : List Char → List String

/-- The empty Redis state for the location service. -/
def emptyLocStore : LocStore := ⟨fun _ => none, fun _ => []⟩

/-- UpdateLocation of service.go: rejects a radius outside the
configured bounds, otherwise encodes the cell, stores the location
record and adds the session id to the cell membership set (SAdd set
semantics).  The two five-minute TTL refreshes are not modelled. -/
def UpdateLocation (minRadius maxRadius : ℤ) (geohashPrecision : ℕ) (now : ℤ)
    (st : LocStore) (sessionID : String) (lat lon : ℚ) (radius : ℤ) :
    Except String LocStore :=
  if radius < minRadius ∨ radius > maxRadius then
    .error "radius out of bounds"
  else
    let geohash := Encode lat lon geohashPrecision
    let location : LocRecord := ⟨sessionID, lat, lon, radius, geohash, now⟩
    .ok
      { locations := fun id => if id = sessionID then some location else st.locations id
        cells := fun g =>
          if g = geohash then
            (if sessionID ∈ st.cells g then st.cells g else st.cells g ++ [sessionID])
          else st.cells g }

/-- A nearby-user entry returned by GetNearbyUsers in service.go. -/
structure NearbyUser where
  sessionID : String
  username : String
  distance : ℤ
deriving DecidableEq, Repr

/-- getGeohashesInRadius of service.go: the cell of the caller followed
by its GetNeighbors cells. -/
def getGeohashesInRadius (geohash : List Char) : List (List Char) :=
  geohash :: GetNeighbors geohash

/-- GetNearbyUsers of service.go.  The Haversine distance is a float
transcendental in the source, kept abstract here as the oracle dist
taking the two coordinate pairs.  Candidates are gathered from the
caller cell and its neighbor cells, deduplicated (the source uses a Go
map), the caller itself excluded; a candidate whose location record is
gone is skipped; a candidate is emitted when its distance is at most
the caller radius, with the distance rounded to the nearest 50 m. -/
def GetNearbyUsers (dist : ℚ → ℚ → ℚ → ℚ → ℚ) (st : LocStore) (sessionID : String)
    (getUsernameFn : String → String) : Except String (List NearbyUser) :=
  match st.locations sessionID with
  | none => .error "location not found"
  | some userLoc =>
    let geohashes := getGeohashesInRadius userLoc.geohash
    let candidates :=
      ((geohashes.flatMap (fun gh => st.cells gh)).filter (fun c => c ≠ sessionID)).dedup
    .ok (candidates.filterMap (fun candidateID =>
      match st.locations candidateID with
      | none => none
      | some candidateLoc =>
        let d := dist userLoc.lat userLoc.lon candidateLoc.lat candidateLoc.lon
        if d ≤ (userLoc.radius : ℚ) then
          some ⟨candidateID, getUsernameFn candidateID, RoundToNearest50 d⟩
        else none))

/-- Concrete caller record used by the nearby-query witness. -/
def c2caller : LocRecord := ⟨"s1", 0, 0, 500, Encode 0 0 7, 0⟩

/-- Concrete candidate record used by the nearby-query witness. -/
def c2cand : LocRecord := ⟨"s2", 1/1000, 1/1000, 500, Encode 0 0 7, 0⟩

/-- Concrete store with a caller and one candidate in the same cell. -/
def c2store : LocStore :=
  ⟨fun id => if id = "s1" then some c2caller else if id = "s2" then some c2cand else none,
    fun g => if g = Encode 0 0 7 then ["s1", "s2"] else []⟩

/-- Distance oracle of the witness: every pair is 165 meters apart. -/
def c2dist : ℚ → ℚ → ℚ → ℚ → ℚ := fun _ _ _ _ => 165

/-- Username lookup of the witness. -/
def c2fn : String → String := fun _ => "Bob"

end Location

namespace Ratelimit

/-- checkSlidingWindow of limiter.go over one rate-limit key.  The
sorted-set member the source inserts is the decimal print of the whole
second timestamp and its score equals that timestamp, so the set is
exactly a finite set of integer timestamps: a second insert at the same
second is absorbed.  ZRemRangeByScore from minus infinity to windowStart
removes the scores at most windowStart (Redis bounds are inclusive);
the check then denies when the remaining count has reached the cap and
otherwise inserts the current timestamp.  The TTL refresh of the key is
not modelled. -/
def checkSlidingWindow (maxCount windowSec : ℕ) (now : ℤ) (entries : Finset ℤ) :
    Bool × Finset ℤ :=
  let windowStart := now - windowSec
  let cleaned := entries.filter (fun t => windowStart < t)
  if (maxCount : ℤ) ≤ cleaned.card then (false, cleaned)
  else (true, insert now cleaned)

/-- A sequence of sequential calls to checkSlidingWindow on one key,
returning the allowed flags in call order and the final set. -/
def slideRun (maxCount windowSec : ℕ) : List ℤ → Finset ℤ → List Bool × Finset ℤ
  | [], s => ([], s)
  | t :: ts, s =>
    let r := checkSlidingWindow maxCount windowSec t s
    let rest := slideRun maxCount windowSec ts r.2
    (r.1 :: rest.1, rest.2)

/-- The call times of a run that were answered allowed. -/
def runAllowed (maxCount windowSec : ℕ) (ts : List ℤ) (s : Finset ℤ) : List ℤ :=
  (ts.zip (slideRun maxCount windowSec ts s).1).filterMap
    (fun p => if p.2 then some p.1 else none)

/-- How many calls of a run from the empty key were answered allowed
with a call time inside the half-open window from a exclusive to
a plus windowSec inclusive. -/
def allowedInWindow (maxCount windowSec : ℕ) (ts : List ℤ) (a : ℤ) : ℕ :=
  ((runAllowed maxCount windowSec ts ∅).filter
    (fun t => a < t ∧ t ≤ a + windowSec)).length

/-- A set of admitted timestamps respects the cap on every half-open
window of the configured length. -/
def windowOK (maxCount windowSec : ℕ) (A : Finset ℤ) : Prop :=
  ∀ a : ℤ, (A.filter (fun x => a < x ∧ x ≤ a + (windowSec : ℤ))).card ≤ maxCount

end Ratelimit

namespace Session

/-- A session record as marshalled at key session:id by service.go of
the session package.  Counts are Go ints, modelled as integers. -/
structure SessionRec where
  id : String
  username : String
  usernameChangeCount : ℤ
  maxUsernameChanges : ℤ
  createdAt : ℤ
  lastSeen : ℤ
  ipAddress : String
deriving DecidableEq

/-- The session slice of the Redis state: records keyed by session id. -/
def SessionStore := String → Option SessionRec

/-- Writing one record at its key, the effect of save in service.go. -/
def setStore (st : SessionStore) (k0 : String) (v : SessionRec) : SessionStore :=
  fun k => if k = k0 then some v else st k

/-- Create of the session service: a fresh record with change count
zero and the configured cap; the random id and username of the source
are taken as parameters. -/
def Create (st : SessionStore) (id username : String) (maxChanges : ℤ) (now : ℤ)
    (ipAddress : String) : SessionStore :=
  setStore st id ⟨id, username, 0, maxChanges, now, now, ipAddress⟩

/-- UpdateUsername of the session service: loads the record, fails when
the change count has reached the cap, otherwise stores the record with
the new name, the count incremented and last-seen refreshed. -/
def UpdateUsername (st : SessionStore) (sessionID newUsername : String) (now : ℤ) :
    Except String SessionStore :=
  match st sessionID with
  | none => .error "session not found"
  | some s =>
    if s.usernameChangeCount ≥ s.maxUsernameChanges then
      .error "username change limit reached"
    else
      .ok (setStore st sessionID
        { s with
          username := newUsername
          usernameChangeCount := s.usernameChangeCount + 1
          lastSeen := now })

/-- UpdateLastSeen of the session service: refreshes last-seen only. -/
def UpdateLastSeen (st : SessionStore) (sessionID : String) (now : ℤ) :
    Except String SessionStore :=
  match st sessionID with
  | none => .error "session not found"
  | some s => .ok (setStore st sessionID { s with lastSeen := now })

/-- Delete of the session service, also covering TTL expiry of a key. -/
def Delete (st : SessionStore) (sessionID : String) : SessionStore :=
  fun k => if k = sessionID then none else st k

/-- One transition of the session store along the operations the claim
ranges over: creation with a fresh collision-resistant id and a
nonnegative configured cap, or a successful rename. -/
inductive SessionStep : SessionStore → SessionStore → Prop where
  | create (st : SessionStore) (id username : String) (maxChanges now : ℤ) (ip : String)
      (hfresh : st id = none) (hcap : 0 ≤ maxChanges) :
      SessionStep st (Create st id username maxChanges now ip)
  | rename (st st2 : SessionStore) (sessionID newUsername : String) (now : ℤ)
      (h : UpdateUsername st sessionID newUsername now = .ok st2) :
      SessionStep st st2

/-- A session store reachable from the empty store through create and
rename. -/
def ReachableStore (st : SessionStore) : Prop :=
  Relation.ReflTransGen SessionStep (fun _ => none) st

/-- Concrete session record used by the rename witness. -/
def c4rec : SessionRec := ⟨"A", "HappyPanda1", 0, 3, 0, 0, "ip"⟩

/-- Concrete session store used by the rename witness. -/
def c4store : SessionStore := fun k => if k = "A" then some c4rec else none

end Session

namespace Spam

/-- The configuration fields of the Detector struct in detector.go.
The profanity word list is loaded externally by the source, so it is a
field here as well; the compiled URL regex is realised by the counter
urlCount below. -/
structure Detector where
  profanityEnabled : Bool
  duplicateWindowSeconds : ℤ
  maxURLsPerMessage : ℕ
  profanityWords : List String

/-- The whitespace set of unicode.IsSpace restricted to ASCII, used by
strings.TrimSpace in detector.go. -/
def goIsSpace (c : Char) : Bool :=
  c = ' ' ∨ c = '\t' ∨ c = '\n' ∨ c = '\x0b' ∨ c = '\x0c' ∨ c = '\r'

/-- strings.TrimSpace: strip leading and trailing whitespace. -/
def goTrimSpace (s : List Char) : List Char :=
  ((s.dropWhile goIsSpace).reverse.dropWhile goIsSpace).reverse

/-- The whitespace class of the URL regex in detector.go (RE2 class
backslash-s). -/
def isSpaceByte (c : Char) : Bool :=
  c = ' ' ∨ c = '\t' ∨ c = '\n' ∨ c = '\x0c' ∨ c = '\r'

/-- Leftmost greedy scan counting the matches that FindAllString of the
URL regex of detector.go returns: an http or https scheme followed by
at least one character that is not whitespace, the run taken maximally,
scanning resuming after each match.  The fuel argument bounds the
recursion by the length of the text. -/
def urlCountAux : ℕ → List Char → ℕ
  | 0, _ => 0
  | fuel + 1, l =>
    match l with
    | [] => 0
    | _ :: rest =>
      let schemeLen : ℕ :=
        if l.take 8 = "https://".toList then 8
        else if l.take 7 = "http://".toList then 7
        else 0
      if schemeLen = 0 then urlCountAux fuel rest
      else
        let after := l.drop schemeLen
        let run := after.takeWhile (fun c => ¬ isSpaceByte c)
        if run.length = 0 then urlCountAux fuel rest
        else 1 + urlCountAux fuel (after.drop run.length)

/-- Number of URL matches in a message body. -/
def urlCount (content : String) : ℕ :=
  urlCountAux content.toList.length content.toList

/-- Substring occurrence check realising strings.Contains. -/
def containsSub (hay needle : List Char) : Bool :=
  (List.range (hay.length + 1)).any (fun i => (hay.drop i).take needle.length = needle)

/-- containsProfanity of detector.go: case-insensitive substring test
of every configured word against the message body. -/
def containsProfanity (d : Detector) (content : String) : Bool :=
  d.profanityWords.any (fun word =>
    containsSub (content.toList.map Char.toLower) (word.toList.map Char.toLower))

/-- hasExcessiveURLs of detector.go. -/
def hasExcessiveURLs (d : Detector) (content : String) : Bool :=
  urlCount content > d.maxURLsPerMessage

/-- The duplicate-digest slice of the Redis state: the key built from
the session id and the md5 digest of the body, carrying its expiry
time.  A key counts as present exactly while the current time is
before its expiry. -/
def DupStore := String × String → Option ℤ

/-- checkDuplicateSpam of detector.go: rejects while the digest key of
this body is alive and otherwise stores the key with a TTL of the
duplicate window.  The digest function (md5 hex in the source) is an
oracle parameter. -/
def checkDuplicateSpam (d : Detector) (digest : String → String) (now : ℤ)
    (dup : DupStore) (sessionID content : String) : Except String DupStore :=
  let key := (sessionID, digest content)
  let keyExists := match dup key with
    | some expiry => decide (now < expiry)
    | none => false
  if keyExists then .error "duplicate message detected"
  else .ok (fun k => if k = key then some (now + d.duplicateWindowSeconds) else dup k)

/-- ValidateMessage of detector.go, in source order: byte length below
one, byte length above five hundred, blank after trimming, profanity
when enabled, URL count above the cap, then the duplicate check.  Every
rejection leaves the duplicate store untouched. -/
def ValidateMessage (d : Detector) (digest : String → String) (now : ℤ)
    (dup : DupStore) (sessionID content : String) : Except String DupStore :=
  if content.length < 1 then .error "message too short"
  else if content.length > 500 then .error "message too long"
  else if goTrimSpace content.toList = [] then .error "message cannot be empty"
  else if d.profanityEnabled && containsProfanity d content then
    .error "message contains profanity"
  else if hasExcessiveURLs d content then .error "too many URLs in message"
  else checkDuplicateSpam d digest now dup sessionID content

end Spam

namespace Websocket

/-- The outcome of handleChatMessage in handler.go for one inbound chat
frame: accepted and broadcast, or an error frame with code RATE_LIMIT,
or an error frame with code SPAM_DETECTED. -/
inductive Outcome where
  | accepted
  | rateLimit
  | spamDetected
deriving DecidableEq, Repr

/-- The mutable state the chat ingress path touches: the per-session
message rate-limit sets and the duplicate-digest keys. -/
structure IngressState where
  rl : String → Finset ℤ
  dup : Spam.DupStore

/-- The ingress state of a fresh deployment. -/
def emptyIngress : IngressState := ⟨fun _ => ∅, fun _ => none⟩

/-- handleChatMessage of handler.go: AllowMessage first (the sliding
window over key ratelimit:msg:sessionID with the per-minute cap and a
sixty second window), a denial answered with RATE_LIMIT; then
ValidateMessage, a rejection answered with SPAM_DETECTED; an accepted
frame is stored and submitted to the hub broadcast channel.  Note that
an allowed rate check has already inserted its timestamp even when the
spam gate rejects afterwards. -/
def handleChatMessage (messagesPerMin : ℕ) (d : Spam.Detector)
    (digest : String → String) (now : ℤ) (st : IngressState)
    (sessionID content : String) : Outcome × IngressState :=
  let r := Ratelimit.checkSlidingWindow messagesPerMin 60 now (st.rl sessionID)
  let st1 : IngressState :=
    { st with rl := fun k => if k = sessionID then r.2 else st.rl k }
  if r.1 = false then (.rateLimit, st1)
  else
    match Spam.ValidateMessage d digest now st1.dup sessionID content with
    | .error _ => (.spamDetected, st1)
    | .ok dup2 => (.accepted, { st1 with dup := dup2 })

/-- A sequence of inbound chat frames of one session processed in
arrival order, as the per-connection reader does. -/
def chatRun (messagesPerMin : ℕ) (d : Spam.Detector) (digest : String → String)
    (sessionID : String) : List (ℤ × String) → IngressState → List Outcome × IngressState
  | [], st => ([], st)
  | (now, content) :: rest, st =>
    let r := handleChatMessage messagesPerMin d digest now st sessionID content
    let rec2 := chatRun messagesPerMin d digest sessionID rest r.2
    (r.1 :: rec2.1, rec2.2)

/-- The detector configuration of the deployed defaults: profanity
filter enabled with the empty word list of the source, a thirty second
duplicate window, at most two URLs. -/
def defaultDetector : Spam.Detector := ⟨true, 30, 2, []⟩

/-- Eleven frames with pairwise distinct bodies at consecutive seconds,
used for the distinct-content part of the chat scenario. -/
def c3msgs : List (ℤ × String) :=
  [(0, "m0"), (1, "m1"), (2, "m2"), (3, "m3"), (4, "m4"), (5, "m5"),
    (6, "m6"), (7, "m7"), (8, "m8"), (9, "m9"), (10, "m10")]

/-- The Message frame of message.go; the geohash field is server
internal and never serialised to clients. -/
structure HMessage where
  id : String
  type : String
  senderID : String
  username : String
  content : String
  distance : String
  timestamp : ℤ
  geohash : String
  userCount : ℕ
  errorCode : String
deriving DecidableEq, Repr

/-- A frame with every optional field empty, completed per use. -/
def blankMessage : HMessage := ⟨"", "", "", "", "", "", 0, "", 0, ""⟩

/-- The user_left notification built by broadcastUserLeft in hub.go. -/
def userLeftMessage (username : String) (count : ℕ) : HMessage :=
  { blankMessage with type := "user_left", username := username, userCount := count }

/-- The data fields of the Client struct in client.go: identity, bound
cell, radius, and the outbound frame queue (a channel of capacity 256
in the source, modelled as the list of pending frames). -/
structure HClient where
  sessionID : String
  username : String
  geohash : String
  radius : ℤ
  send : List HMessage
deriving DecidableEq, Repr

/-- Capacity of the outbound queue channel created in NewClient. -/
def sendQueueCap : ℕ := 256

/-- The slicing expression s colon-prefixed to four bytes used by
shouldReceiveMessage; Go panics when the string is shorter, modelled
by none. -/
def goSlice4 (s : String) : Option (List Char) :=
  if 4 ≤ s.toList.length then some (s.toList.take 4) else none

/-- shouldReceiveMessage of client.go: false for a client with no bound
cell, otherwise the comparison of the four byte prefixes of the client
cell and the message cell; none models the out-of-range panic. -/
def shouldReceiveMessage (c : HClient) (msg : HMessage) : Option Bool :=
  if c.geohash = "" then some false
  else
    match goSlice4 c.geohash, goSlice4 msg.geohash with
    | some a, some b => some (decide (a = b))
    | _, _ => none

/-- The in-process hub state of hub.go together with the Redis effects
the hub performs: the client registry, the distributed active set
ws:active, the closed outbound queues, and frames published on broker
channels. -/
structure HubState where
  clients : List (String × HClient)
  wsActive : List String
  closedQueues : List String
  published : List (String × HMessage)
deriving DecidableEq, Repr

/-- The fan-out loop inside broadcastMessage of hub.go: every client
whose shouldReceiveMessage matches gets the frame enqueued when its
queue has room, and is otherwise closed and removed from the registry;
returns the surviving registry and the closed session ids, or none when
shouldReceiveMessage panics. -/
def broadcastLoop (msg : HMessage) :
    List (String × HClient) → Option (List (String × HClient) × List String)
  | [] => some ([], [])
  | (sid, c) :: rest =>
    match shouldReceiveMessage c msg with
    | none => none
    | some false => (broadcastLoop msg rest).map (fun r => ((sid, c) :: r.1, r.2))
    | some true =>
      if c.send.length < sendQueueCap then
        (broadcastLoop msg rest).map
          (fun r => ((sid, { c with send := c.send ++ [msg] }) :: r.1, r.2))
      else
        (broadcastLoop msg rest).map (fun r => (r.1, sid :: r.2))

/-- broadcastMessage of hub.go: publishes the frame on the broker
channel chat:geohash for the sibling nodes, then runs the local
fan-out loop.  Nothing here touches ws:active. -/
def broadcastMessage (h : HubState) (msg : HMessage) : Option HubState :=
  (broadcastLoop msg h.clients).map (fun r =>
    { clients := r.1
      wsActive := h.wsActive
      closedQueues := h.closedQueues ++ r.2
      published := h.published ++ [("chat:" ++ msg.geohash, msg)] })

/-- unregisterClient of hub.go: only when the session is still in the
registry, deletes it, closes its queue, removes it from ws:active and
dispatches user_left (with the count read after the delete) to every
remaining client whose queue has room; otherwise does nothing at all. -/
def unregisterClient (h : HubState) (client : HClient) : HubState :=
  match h.clients.lookup client.sessionID with
  | none => h
  | some _ =>
    let clients2 := h.clients.filter (fun p => p.1 ≠ client.sessionID)
    let msg := userLeftMessage client.username clients2.length
    { clients := clients2.map (fun p =>
        if p.2.send.length < sendQueueCap then
          (p.1, { p.2 with send := p.2.send ++ [msg] })
        else p)
      wsActive := h.wsActive.erase client.sessionID
      closedQueues := h.closedQueues ++ [client.sessionID]
      published := h.published }

/-- Concrete chat frame used by the eviction scenario. -/
def c7msg : HMessage :=
  { blankMessage with
    type := "chat_message"
    senderID := "S"
    content := "hi"
    geohash := "dr5regw" }

/-- A client whose outbound queue is full. -/
def c7clientA : HClient := ⟨"A", "alice", "dr5regw", 500, List.replicate 256 blankMessage⟩

/-- A client with an empty outbound queue in the same cell. -/
def c7clientB : HClient := ⟨"B", "bob", "dr5regw", 500, []⟩

/-- The hub before the broadcast: both clients registered and active. -/
def c7hub : HubState := ⟨[("A", c7clientA), ("B", c7clientB)], ["A", "B"], [], []⟩

/-- The hub after the broadcast, as computed by broadcastMessage. -/
def c7after : HubState :=
  ⟨[("B", ⟨"B", "bob", "dr5regw", 500, [c7msg]⟩)], ["A", "B"], ["A"],
    [("chat:dr5regw", c7msg)]⟩

end Websocket

/-!  Theorems.  Each claim of the specification is settled by exactly
one theorem below; corrected claims additionally get a concrete
counterexample run, and every theorem with a hypothesis gets a closed
witness instance. -/

/-- C6: the specification asks for the eight geographically adjacent
cells of the same precision, and records the arithmetic in the source
as a known defect.  Evaluating the source at the valid precision-one
cell produced by Encode at the south-west corner: GetNeighbors returns
the four codes 1, 5, 6 and 4 obtained by index offsets inside the
alphabet, not the eight cells of the Moore neighborhood. -/
theorem C6_neighbors_code_eval :
    Location.GetNeighbors (Location.Encode (-90) (-180) 1) = [['1'], ['5'], ['6'], ['4']] ∧
    (Location.GetNeighbors (Location.Encode (-90) (-180) 1)).length ≠ 8 := by
  constructor <;> decide

/-- C8 counterexample: latitude 91 is outside the legal range, yet
UpdateLocation succeeds and writes a location record for the session,
with the cell code encoded from the out-of-range point; only the radius
is validated there. -/
theorem C8_counterexample :
    ((91 : ℚ) > 90) ∧
    ((Location.UpdateLocation 100 2000 7 0 Location.emptyLocStore "s1" 91 0 500).toOption.bind
        (fun st => (st.locations "s1").map (fun l => l.geohash)) =
      some (Location.Encode 91 0 7)) := by
  constructor <;> decide

/-- C8 (amended): UpdateLocation returns an error and writes nothing
exactly when the radius is outside the configured bounds; latitude and
longitude are not validated by the upsert (the HTTP handler checks them
separately before calling it).  On an admitted radius it writes a
location record whose cell code equals Encode of the coordinates at the
configured precision and adds the session id to that cell membership
set. -/
theorem C8_updateLocation (minR maxR : ℤ) (P : ℕ) (now : ℤ) (st : Location.LocStore)
    (sid : String) (lat lon : ℚ) (radius : ℤ) :
    (radius < minR ∨ radius > maxR →
      Location.UpdateLocation minR maxR P now st sid lat lon radius =
        .error "radius out of bounds") ∧
    (minR ≤ radius → radius ≤ maxR →
      ((Location.UpdateLocation minR maxR P now st sid lat lon radius).toOption.bind
          (fun st2 => st2.locations sid) =
        some ⟨sid, lat, lon, radius, Location.Encode lat lon P, now⟩) ∧
      ((Location.UpdateLocation minR maxR P now st sid lat lon radius).toOption.map
          (fun st2 => decide (sid ∈ st2.cells (Location.Encode lat lon P))) =
        some true)) := by
  constructor
  · intro h
    simp only [Location.UpdateLocation, if_pos h]
  · intro h1 h2
    have hcond : ¬ (radius < minR ∨ radius > maxR) := by omega
    simp only [Location.UpdateLocation, if_neg hcond]
    refine ⟨by simp [Except.toOption], ?_⟩
    simp only [Option.map, Except.toOption]
    by_cases hmem : sid ∈ st.cells (Location.Encode lat lon P) <;> simp [hmem]

/-- C8 witness: the boundary radius 100 is admitted at the origin and
the record and cell membership are written. -/
theorem C8_witness :
    ((100 : ℤ) ≤ 100) ∧ ((100 : ℤ) ≤ 2000) ∧
    ((Location.UpdateLocation 100 2000 7 0 Location.emptyLocStore "s1" 0 0 100).toOption.bind
        (fun st2 => st2.locations "s1") =
      some ⟨"s1", 0, 0, 100, Location.Encode 0 0 7, 0⟩) ∧
    ((Location.UpdateLocation 100 2000 7 0 Location.emptyLocStore "s1" 0 0 100).toOption.map
        (fun st2 => decide ("s1" ∈ st2.cells (Location.Encode 0 0 7))) =
      some true) :=
  ⟨by decide, by decide,
    (C8_updateLocation 100 2000 7 0 Location.emptyLocStore "s1" 0 0 100).2
      (by decide) (by decide) |>.1,
    (C8_updateLocation 100 2000 7 0 Location.emptyLocStore "s1" 0 0 100).2
      (by decide) (by decide) |>.2⟩

/-- C10: shouldReceiveMessage answers false for a client with an empty
cell code; with a non-empty client cell it reads the first four bytes
of both cell codes unconditionally, so it is panic free exactly when
both codes have length at least four, in which case its answer is the
equality of the two four-byte prefixes; the answer never depends on the
client radius. -/
theorem C10_shouldReceiveMessage (c : Websocket.HClient) (m : Websocket.HMessage) :
    (c.geohash = "" → Websocket.shouldReceiveMessage c m = some false) ∧
    (c.geohash ≠ "" → 4 ≤ c.geohash.length → 4 ≤ m.geohash.length →
      Websocket.shouldReceiveMessage c m =
        some (decide (c.geohash.toList.take 4 = m.geohash.toList.take 4))) ∧
    (c.geohash ≠ "" → (c.geohash.length < 4 ∨ m.geohash.length < 4) →
      Websocket.shouldReceiveMessage c m = none) ∧
    (∀ r : ℤ, Websocket.shouldReceiveMessage { c with radius := r } m =
      Websocket.shouldReceiveMessage c m) := by
  have hlen : ∀ s : String, s.toList.length = s.length := fun s => rfl
  refine ⟨?_, ?_, ?_, ?_⟩
  · intro h
    simp [Websocket.shouldReceiveMessage, h]
  · intro h h4c h4m
    simp only [Websocket.shouldReceiveMessage, if_neg h, Websocket.goSlice4]
    rw [if_pos (show 4 ≤ c.geohash.toList.length from h4c),
      if_pos (show 4 ≤ m.geohash.toList.length from h4m)]
  · intro h hlt
    have hlt2 : c.geohash.toList.length < 4 ∨ m.geohash.toList.length < 4 := by
      rw [hlen, hlen]; exact hlt
    simp only [Websocket.shouldReceiveMessage, if_neg h, Websocket.goSlice4]
    rcases hlt2 with h1 | h1
    · rw [if_neg (by omega)]
    · rcases Nat.lt_or_ge c.geohash.toList.length 4 with h2 | h2
      · rw [if_neg (by omega)]
      · rw [if_pos h2, if_neg (by omega)]
  · intro r
    rfl

/-- C10 witness: a client bound to cell dr5regw paired with a message
cell of the same prefix, a shorter message cell triggering the panic
case, and radius independence at a concrete pair. -/
theorem C10_witness :
    (("dr5regw" : String) ≠ "" ∧
      Websocket.shouldReceiveMessage ⟨"A", "alice", "dr5regw", 500, []⟩
          { Websocket.blankMessage with geohash := "dr5ruvx" } =
        some (decide (("dr5regw" : String).toList.take 4 = ("dr5ruvx" : String).toList.take 4))) ∧
    (("dr5regw" : String) ≠ "" ∧
      Websocket.shouldReceiveMessage ⟨"A", "alice", "dr5regw", 500, []⟩
          { Websocket.blankMessage with geohash := "dr5" } = none) :=
  ⟨⟨by decide,
      ((C10_shouldReceiveMessage ⟨"A", "alice", "dr5regw", 500, []⟩
          { Websocket.blankMessage with geohash := "dr5ruvx" }).2.1
        (by decide) (by decide) (by decide))⟩,
    ⟨by decide,
      ((C10_shouldReceiveMessage ⟨"A", "alice", "dr5regw", 500, []⟩
          { Websocket.blankMessage with geohash := "dr5" }).2.2.1
        (by decide) (Or.inr (by decide)))⟩⟩

/-- C2: for a caller with a stored location, GetNearbyUsers returns
exactly the candidates drawn from the caller cell and its neighbor
cells that are not the caller, still have a location record (missing
records are skipped silently), and lie at distance at most the caller
radius, boundary included; the reported distance is the oracle distance
rounded to the nearest 50 meters and the username comes from the
lookup. -/
theorem C2_getNearbyUsers (dist : ℚ → ℚ → ℚ → ℚ → ℚ) (st : Location.LocStore)
    (sid : String) (fn : String → String) (userLoc : Location.LocRecord)
    (hloc : st.locations sid = some userLoc) (l : List Location.NearbyUser)
    (hl : (Location.GetNearbyUsers dist st sid fn).toOption = some l)
    (u : Location.NearbyUser) :
    u ∈ l ↔
      u.sessionID ≠ sid ∧
      (∃ gh ∈ Location.getGeohashesInRadius userLoc.geohash, u.sessionID ∈ st.cells gh) ∧
      ∃ loc, st.locations u.sessionID = some loc ∧
        dist userLoc.lat userLoc.lon loc.lat loc.lon ≤ (userLoc.radius : ℚ) ∧
        u.username = fn u.sessionID ∧
        u.distance = Location.RoundToNearest50 (dist userLoc.lat userLoc.lon loc.lat loc.lon) := by
  unfold Location.GetNearbyUsers at hl
  rw [hloc] at hl
  simp only [Except.toOption, Option.some.injEq] at hl
  subst hl
  rw [List.mem_filterMap]
  constructor
  · rintro ⟨a, ha, hfa⟩
    rw [List.mem_dedup, List.mem_filter] at ha
    obtain ⟨hbind, hne⟩ := ha
    rw [List.mem_flatMap] at hbind
    obtain ⟨gh, hgh, hcell⟩ := hbind
    rcases hsl : st.locations a with _ | loc
    · rw [hsl] at hfa; exact absurd hfa (by simp)
    · rw [hsl] at hfa
      dsimp only at hfa
      by_cases hd : dist userLoc.lat userLoc.lon loc.lat loc.lon ≤ (userLoc.radius : ℚ)
      · rw [if_pos hd] at hfa
        have hu := Option.some.inj hfa
        refine ⟨?_, ⟨gh, hgh, ?_⟩, loc, ?_, hd, ?_, ?_⟩ <;>
          simp [← hu] at hne ⊢ <;> first
          | exact fun hcon => hne (by simp [hcon])
          | exact hcell
          | exact hsl
      · rw [if_neg hd] at hfa; exact absurd hfa (by simp)
  · rintro ⟨hne, ⟨gh, hgh, hcell⟩, loc, hsl, hd, hun, hdd⟩
    refine ⟨u.sessionID, ?_, ?_⟩
    · rw [List.mem_dedup, List.mem_filter]
      exact ⟨List.mem_flatMap.mpr ⟨gh, hgh, hcell⟩, by simpa using hne⟩
    · rw [hsl]
      dsimp only
      rw [if_pos hd]
      cases u
      simp_all

/-- C2 witness: the caller at the origin with radius 500 sees exactly
the candidate 165 meters away, reported at the rounded distance 150. -/
theorem C2_witness :
    (Location.c2store.locations "s1" = some Location.c2caller) ∧
    ((Location.GetNearbyUsers Location.c2dist Location.c2store "s1"
        Location.c2fn).toOption = some [⟨"s2", "Bob", 150⟩]) ∧
    (Location.NearbyUser.mk "s2" "Bob" 150 ∈ [Location.NearbyUser.mk "s2" "Bob" 150]) :=
  ⟨by decide, by decide,
    (C2_getNearbyUsers Location.c2dist Location.c2store "s1" Location.c2fn
        Location.c2caller (by decide) [⟨"s2", "Bob", 150⟩] (by decide)
        ⟨"s2", "Bob", 150⟩).mpr
      ⟨by decide, ⟨Location.Encode 0 0 7, by decide, by decide⟩,
        Location.c2cand, by decide, by decide, by decide, by decide⟩⟩

/-- Each Encode bit step keeps the point inside the narrowed box. -/
theorem encBit_contains (lat lon : ℚ) (e : Bool) (b : Location.GeoBox)
    (h : b.contains lat lon) : ((Location.encBit lat lon e b).2).contains lat lon := by
  obtain ⟨h1, h2, h3, h4⟩ := h
  unfold Location.encBit
  cases e <;> dsimp only <;> split_ifs with hc <;>
    exact ⟨by dsimp only; linarith, by dsimp only; linarith,
      by dsimp only; linarith, by dsimp only; linarith⟩

/-- Feeding the bit chosen by an Encode step into the corresponding
Decode step reproduces the same narrowed box. -/
theorem decBit_encBit (lat lon : ℚ) (e : Bool) (b : Location.GeoBox) :
    Location.decBit (Location.encBit lat lon e b).1 e b = (Location.encBit lat lon e b).2 := by
  unfold Location.encBit Location.decBit
  cases e <;> dsimp only <;> split_ifs <;> simp_all

/-- The accumulated character value stays inside the alphabet. -/
theorem chVal_lt : ∀ b0 b1 b2 b3 b4 : Bool, Location.chVal b0 b1 b2 b3 b4 < 32 := by
  decide

/-- Decode finds the index of every alphabet character that Encode can
emit. -/
theorem base32_findIdx : ∀ i : Fin 32,
    Location.base32.findIdx? (fun c => c == Location.base32.getD i.val ' ') = some i.val := by
  decide

/-- Bit extraction in Decode recovers the five bits that Encode packed
into the character value. -/
theorem chVal_bits : ∀ b0 b1 b2 b3 b4 : Bool,
    (decide ((Location.chVal b0 b1 b2 b3 b4 >>> 4) &&& 1 = 1) = b0) ∧
    (decide ((Location.chVal b0 b1 b2 b3 b4 >>> 3) &&& 1 = 1) = b1) ∧
    (decide ((Location.chVal b0 b1 b2 b3 b4 >>> 2) &&& 1 = 1) = b2) ∧
    (decide ((Location.chVal b0 b1 b2 b3 b4 >>> 1) &&& 1 = 1) = b3) ∧
    (decide ((Location.chVal b0 b1 b2 b3 b4 >>> 0) &&& 1 = 1) = b4) := by
  decide

/-- Decoding one character emitted by Encode advances the Decode state
exactly as Encode advanced its own state. -/
theorem decodeAux_encChar_step (lat lon : ℚ) (e : Bool) (b : Location.GeoBox)
    (rest : List Char) :
    Location.decodeAux ((Location.encChar lat lon e b).1 :: rest) e b =
      Location.decodeAux rest (Location.encChar lat lon e b).2.1
        (Location.encChar lat lon e b).2.2 := by
  rcases hp0 : Location.encBit lat lon e b with ⟨b0, B0⟩
  rcases hp1 : Location.encBit lat lon (!e) B0 with ⟨b1, B1⟩
  rcases hp2 : Location.encBit lat lon e B1 with ⟨b2, B2⟩
  rcases hp3 : Location.encBit lat lon (!e) B2 with ⟨b3, B3⟩
  rcases hp4 : Location.encBit lat lon e B3 with ⟨b4, B4⟩
  have hchar : Location.encChar lat lon e b =
      (Location.base32.getD (Location.chVal b0 b1 b2 b3 b4) ' ', (!e, B4)) := by
    simp only [Location.encChar, hp0, hp1, hp2, hp3, hp4]
  have hdec : Location.decChar (Location.chVal b0 b1 b2 b3 b4) e b = (!e, B4) := by
    obtain ⟨e0, e1, e2, e3, e4⟩ := chVal_bits b0 b1 b2 b3 b4
    have d0 : Location.decBit b0 e b = B0 := by
      have hx := decBit_encBit lat lon e b; rw [hp0] at hx; exact hx
    have d1 : Location.decBit b1 (!e) B0 = B1 := by
      have hx := decBit_encBit lat lon (!e) B0; rw [hp1] at hx; exact hx
    have d2 : Location.decBit b2 e B1 = B2 := by
      have hx := decBit_encBit lat lon e B1; rw [hp2] at hx; exact hx
    have d3 : Location.decBit b3 (!e) B2 = B3 := by
      have hx := decBit_encBit lat lon (!e) B2; rw [hp3] at hx; exact hx
    have d4 : Location.decBit b4 e B3 = B4 := by
      have hx := decBit_encBit lat lon e B3; rw [hp4] at hx; exact hx
    simp only [Location.decChar, e0, e1, e2, e3, e4, d0, d1, d2, d3, d4]
  rw [hchar]
  simp only [Location.decodeAux,
    base32_findIdx ⟨Location.chVal b0 b1 b2 b3 b4, chVal_lt b0 b1 b2 b3 b4⟩, hdec]

/-- Five Encode bit steps keep the point inside the box. -/
theorem encChar_contains (lat lon : ℚ) (e : Bool) (b : Location.GeoBox)
    (h : b.contains lat lon) :
    (Location.encChar lat lon e b).2.2.contains lat lon := by
  unfold Location.encChar
  exact encBit_contains _ _ _ _ (encBit_contains _ _ _ _ (encBit_contains _ _ _ _
    (encBit_contains _ _ _ _ (encBit_contains _ _ _ _ h))))

/-- Decoding the characters emitted by the Encode loop lands in a box
containing the encoded point. -/
theorem decodeAux_encodeAux (lat lon : ℚ) : ∀ (n : ℕ) (e : Bool) (b : Location.GeoBox),
    b.contains lat lon →
    (Location.decodeAux (Location.encodeAux lat lon n e b) e b).contains lat lon := by
  intro n
  induction n with
  | zero => intro e b h; exact h
  | succ n ih =>
    intro e b h
    have hstep : Location.encodeAux lat lon (n + 1) e b =
        (Location.encChar lat lon e b).1 :: Location.encodeAux lat lon n
          (Location.encChar lat lon e b).2.1 (Location.encChar lat lon e b).2.2 := rfl
    rw [hstep, decodeAux_encChar_step]
    exact ih _ _ (encChar_contains lat lon e b h)

/-- C5: for every latitude in the legal range, longitude in the legal
range and positive precision, decoding the geohash produced by Encode
yields a bounding box that contains the encoded point in both
coordinates. -/
theorem C5_decode_encode (lat lon : ℚ) (P : ℕ) (_hP : 1 ≤ P)
    (hlat1 : -90 ≤ lat) (hlat2 : lat ≤ 90) (hlon1 : -180 ≤ lon) (hlon2 : lon ≤ 180) :
    (Location.Decode (Location.Encode lat lon P)).latMin ≤ lat ∧
    lat ≤ (Location.Decode (Location.Encode lat lon P)).latMax ∧
    (Location.Decode (Location.Encode lat lon P)).lonMin ≤ lon ∧
    lon ≤ (Location.Decode (Location.Encode lat lon P)).lonMax :=
  decodeAux_encodeAux lat lon P true Location.worldBox ⟨hlat1, hlat2, hlon1, hlon2⟩

/-- C5 witness: the round trip at a Manhattan coordinate and precision
two. -/
theorem C5_witness :
    ((1 : ℕ) ≤ 2) ∧ ((-90 : ℚ) ≤ 40) ∧ ((40 : ℚ) ≤ 90) ∧
    ((-180 : ℚ) ≤ -74) ∧ ((-74 : ℚ) ≤ 180) ∧
    ((Location.Decode (Location.Encode 40 (-74) 2)).latMin ≤ 40 ∧
      (40 : ℚ) ≤ (Location.Decode (Location.Encode 40 (-74) 2)).latMax ∧
      (Location.Decode (Location.Encode 40 (-74) 2)).lonMin ≤ -74 ∧
      (-74 : ℚ) ≤ (Location.Decode (Location.Encode 40 (-74) 2)).lonMax) :=
  ⟨by decide, by decide, by decide, by decide, by decide,
    C5_decode_encode 40 (-74) 2 (by decide) (by decide) (by decide) (by decide) (by decide)⟩

/-- Unfolding one call of a sequential rate-limit run. -/
theorem slideRun_cons (cap W : ℕ) (t : ℤ) (ts : List ℤ) (s : Finset ℤ) :
    Ratelimit.slideRun cap W (t :: ts) s =
      ((Ratelimit.checkSlidingWindow cap W t s).1 ::
          (Ratelimit.slideRun cap W ts (Ratelimit.checkSlidingWindow cap W t s).2).1,
        (Ratelimit.slideRun cap W ts (Ratelimit.checkSlidingWindow cap W t s).2).2) := rfl

/-- An allowed call contributes its timestamp to the allowed list, a
denied call contributes nothing. -/
theorem runAllowed_cons (cap W : ℕ) (t : ℤ) (ts : List ℤ) (s : Finset ℤ) :
    Ratelimit.runAllowed cap W (t :: ts) s =
      (if (Ratelimit.checkSlidingWindow cap W t s).1 then [t] else []) ++
        Ratelimit.runAllowed cap W ts (Ratelimit.checkSlidingWindow cap W t s).2 := by
  unfold Ratelimit.runAllowed
  rw [slideRun_cons]
  cases h : (Ratelimit.checkSlidingWindow cap W t s).1 <;>
    simp [List.filterMap_cons, h]

/-- The allowed timestamps of a run form a sublist of the call times. -/
theorem runAllowed_sublist (cap W : ℕ) :
    ∀ (ts : List ℤ) (s : Finset ℤ), List.Sublist (Ratelimit.runAllowed cap W ts s) ts := by
  intro ts
  induction ts with
  | nil => intro s; simp [Ratelimit.runAllowed, Ratelimit.slideRun]
  | cons t ts ih =>
    intro s
    rw [runAllowed_cons]
    cases h : (Ratelimit.checkSlidingWindow cap W t s).1
    · simpa using List.Sublist.cons t (ih _)
    · simpa using List.Sublist.cons₂ t (ih _)

/-- With the call times pairwise apart by less than the window and the
key holding only live entries older than every call, each call is
allowed exactly while the key has not yet reached the cap: call number
i on a key of k entries is allowed exactly when k plus i is below the
cap. -/
theorem slideRun_fresh (cap W : ℕ) :
    ∀ (ts : List ℤ) (s : Finset ℤ),
      ts.Pairwise (· < ·) →
      (∀ t ∈ ts, ∀ t2 ∈ ts, t2 - t < (W : ℤ)) →
      (∀ x ∈ s, ∀ t ∈ ts, t - (W : ℤ) < x ∧ x < t) →
      (Ratelimit.slideRun cap W ts s).1 =
        (List.range ts.length).map (fun i => decide (s.card + i < cap)) := by
  intro ts
  induction ts with
  | nil => intro s _ _ _; rfl
  | cons t ts ih =>
    intro s hpw hspan hs
    have hclean : s.filter (fun x => t - (W : ℤ) < x) = s := by
      apply Finset.filter_true_of_mem
      intro x hx
      exact (hs x hx t (List.mem_cons_self t ts)).1
    have hcheck : Ratelimit.checkSlidingWindow cap W t s =
        (if (cap : ℤ) ≤ s.card then (false, s) else (true, insert t s)) := by
      unfold Ratelimit.checkSlidingWindow
      dsimp only
      rw [hclean]
    have hrange : List.range (t :: ts).length = 0 :: (List.range ts.length).map Nat.succ := by
      rw [List.length_cons, List.range_succ_eq_map]
    have hspan2 : ∀ a ∈ ts, ∀ b ∈ ts, b - a < (W : ℤ) :=
      fun a ha b hb => hspan a (List.mem_cons_of_mem t ha) b (List.mem_cons_of_mem t hb)
    by_cases hcard : (cap : ℤ) ≤ s.card
    · have hstep : Ratelimit.slideRun cap W (t :: ts) s =
          (false :: (Ratelimit.slideRun cap W ts s).1,
            (Ratelimit.slideRun cap W ts s).2) := by
        rw [slideRun_cons, hcheck, if_pos hcard]
      rw [hstep, hrange]
      have htail := ih s hpw.of_cons hspan2
        (fun x hx a ha => hs x hx a (List.mem_cons_of_mem t ha))
      simp only [List.map_cons, List.map_map]
      congr 1
      · symm
        rw [decide_eq_false_iff_not]
        omega
      · rw [htail]
        apply List.map_congr_left
        intro i _
        simp only [Function.comp_apply]
        rw [decide_eq_decide]
        omega
    · have htns : t ∉ s := fun hmem => lt_irrefl t (hs t hmem t (List.mem_cons_self t ts)).2
      have hstep : Ratelimit.slideRun cap W (t :: ts) s =
          (true :: (Ratelimit.slideRun cap W ts (insert t s)).1,
            (Ratelimit.slideRun cap W ts (insert t s)).2) := by
        rw [slideRun_cons, hcheck, if_neg hcard]
      rw [hstep, hrange]
      have hs2 : ∀ x ∈ insert t s, ∀ a ∈ ts, a - (W : ℤ) < x ∧ x < a := by
        intro x hx a ha
        rcases Finset.mem_insert.mp hx with hx1 | hx2
        · rw [hx1]
          refine ⟨?_, List.rel_of_pairwise_cons hpw ha⟩
          have hq := hspan t (List.mem_cons_self t ts) a (List.mem_cons_of_mem t ha)
          omega
        · exact hs x hx2 a (List.mem_cons_of_mem t ha)
      have htail := ih (insert t s) hpw.of_cons hspan2 hs2
      simp only [List.map_cons, List.map_map]
      congr 1
      · symm
        rw [decide_eq_true_eq]
        omega
      · rw [htail, Finset.card_insert_of_not_mem htns]
        apply List.map_congr_left
        intro i _
        simp only [Function.comp_apply]
        rw [decide_eq_decide]
        omega

/-- The first n answers of the fresh counting pattern are yes and the
next answer is no. -/
theorem range_map_decide_lt (n : ℕ) :
    (List.range (n + 1)).map (fun i => decide (i < n)) = List.replicate n true ++ [false] := by
  rw [List.range_succ, List.map_append]
  congr 1
  · have h1 : ∀ i ∈ List.range n, decide (i < n) = (fun _ => true) i := by
      intro i hi
      rw [List.mem_range] at hi
      simpa using hi
    rw [List.map_congr_left h1, List.map_const', List.length_range]
  · simp

/-- C9 (amended): for a fresh key and sequential requests at pairwise
distinct whole-second timestamps all lying within one window, the first
cap requests are allowed and the request after them, number cap plus
one, is the first one denied; the check denies exactly when the window
already holds at least cap entries, and request number cap still sees
only cap minus one entries. -/
theorem C9_first_denial (cap W : ℕ) (ts : List ℤ)
    (hpw : ts.Pairwise (· < ·))
    (hspan : ∀ t ∈ ts, ∀ t2 ∈ ts, t2 - t < (W : ℤ))
    (hlen : ts.length = cap + 1) :
    (Ratelimit.slideRun cap W ts ∅).1 = List.replicate cap true ++ [false] := by
  rw [slideRun_fresh cap W ts ∅ hpw hspan (by simp), hlen, Finset.card_empty]
  simpa using range_map_decide_lt cap

/-- C9 counterexample: with cap two and a fresh key, the second request
at a distinct timestamp inside the window is allowed, while the claim
as stated says that exactly request number cap is the first denial. -/
theorem C9_counterexample :
    (Ratelimit.slideRun 2 60 [0, 1] ∅).1 = [true, true] := by decide

/-- C9 witness: cap two, three requests at seconds zero, one and two. -/
theorem C9_witness :
    (([0, 1, 2] : List ℤ).length = 2 + 1) ∧
    ((Ratelimit.slideRun 2 60 [0, 1, 2] ∅).1 = List.replicate 2 true ++ [false]) :=
  ⟨by decide, C9_first_denial 2 60 [0, 1, 2] (by decide) (by decide) (by decide)⟩

/-- Invariant of the sliding window runs: starting from admitted set A
and key state s consistent with it (the key holds exactly the still
relevant admitted timestamps, every admitted timestamp earlier than
every upcoming call), if A respects the per-window cap then A together
with the timestamps admitted during the run still respects it. -/
theorem slideRun_windowOK (cap W : ℕ) :
    ∀ (ts : List ℤ) (s A : Finset ℤ),
      ts.Pairwise (· < ·) →
      (∀ x ∈ A, ∀ t ∈ ts, x < t) →
      s ⊆ A →
      (∀ x ∈ A, x ∈ s ∨ ∀ t ∈ ts, x ≤ t - (W : ℤ)) →
      Ratelimit.windowOK cap W A →
      Ratelimit.windowOK cap W (A ∪ (Ratelimit.runAllowed cap W ts s).toFinset) := by
  intro ts
  induction ts with
  | nil =>
    intro s A _ _ _ _ hA
    simpa [Ratelimit.runAllowed, Ratelimit.slideRun] using hA
  | cons t ts ih =>
    intro s A hpw hlt hsub hold hA
    have hcheckdef : Ratelimit.checkSlidingWindow cap W t s =
        (if (cap : ℤ) ≤ (s.filter (fun x => t - (W : ℤ) < x)).card then
          (false, s.filter (fun x => t - (W : ℤ) < x))
        else (true, insert t (s.filter (fun x => t - (W : ℤ) < x)))) := rfl
    have hcsubA : s.filter (fun x => t - (W : ℤ) < x) ⊆ A :=
      (Finset.filter_subset _ _).trans hsub
    have hlt2 : ∀ x ∈ A, ∀ a ∈ ts, x < a :=
      fun x hx a ha => hlt x hx a (List.mem_cons_of_mem t ha)
    have hold2 : ∀ x ∈ A,
        x ∈ s.filter (fun x => t - (W : ℤ) < x) ∨ ∀ a ∈ ts, x ≤ a - (W : ℤ) := by
      intro x hx
      rcases hold x hx with hxs | hxold
      · by_cases hxw : t - (W : ℤ) < x
        · exact Or.inl (Finset.mem_filter.mpr ⟨hxs, hxw⟩)
        · refine Or.inr (fun a ha => ?_)
          have hta := List.rel_of_pairwise_cons hpw ha
          omega
      · exact Or.inr (fun a ha => hxold a (List.mem_cons_of_mem t ha))
    by_cases hcard : (cap : ℤ) ≤ (s.filter (fun x => t - (W : ℤ) < x)).card
    · have hrun : Ratelimit.runAllowed cap W (t :: ts) s =
          Ratelimit.runAllowed cap W ts (s.filter (fun x => t - (W : ℤ) < x)) := by
        rw [runAllowed_cons, hcheckdef, if_pos hcard]
        simp
      rw [hrun]
      exact ih (s.filter (fun x => t - (W : ℤ) < x)) A hpw.of_cons hlt2 hcsubA hold2 hA
    · have htnA : t ∉ A := fun hmem =>
        lt_irrefl t (hlt t hmem t (List.mem_cons_self t ts))
      have hrun : Ratelimit.runAllowed cap W (t :: ts) s =
          t :: Ratelimit.runAllowed cap W ts (insert t (s.filter (fun x => t - (W : ℤ) < x))) := by
        rw [runAllowed_cons, hcheckdef, if_neg hcard]
        simp
      have hswap : A ∪ (t :: Ratelimit.runAllowed cap W ts
            (insert t (s.filter (fun x => t - (W : ℤ) < x)))).toFinset =
          insert t A ∪ (Ratelimit.runAllowed cap W ts
            (insert t (s.filter (fun x => t - (W : ℤ) < x)))).toFinset := by
        rw [List.toFinset_cons, Finset.union_insert, Finset.insert_union]
      rw [hrun, hswap]
      have hlt3 : ∀ x ∈ insert t A, ∀ a ∈ ts, x < a := by
        intro x hx a ha
        rcases Finset.mem_insert.mp hx with hx1 | hx2
        · rw [hx1]; exact List.rel_of_pairwise_cons hpw ha
        · exact hlt2 x hx2 a ha
      have hsub3 : insert t (s.filter (fun x => t - (W : ℤ) < x)) ⊆ insert t A :=
        Finset.insert_subset_insert t hcsubA
      have hold3 : ∀ x ∈ insert t A,
          x ∈ insert t (s.filter (fun x => t - (W : ℤ) < x)) ∨
            ∀ a ∈ ts, x ≤ a - (W : ℤ) := by
        intro x hx
        rcases Finset.mem_insert.mp hx with hx1 | hx2
        · rw [hx1]; exact Or.inl (Finset.mem_insert_self t _)
        · rcases hold2 x hx2 with h1 | h2
          · exact Or.inl (Finset.mem_insert_of_mem h1)
          · exact Or.inr h2
      have hA3 : Ratelimit.windowOK cap W (insert t A) := by
        intro a
        by_cases hin : a < t ∧ t ≤ a + (W : ℤ)
        · rw [Finset.filter_insert, if_pos hin,
            Finset.card_insert_of_not_mem (fun hmem => htnA (Finset.mem_filter.mp hmem).1)]
          have hsubc : A.filter (fun x => a < x ∧ x ≤ a + (W : ℤ)) ⊆
              s.filter (fun x => t - (W : ℤ) < x) := by
            intro x hx
            obtain ⟨hxA, hax, hxw⟩ := Finset.mem_filter.mp hx
            have hxs : x ∈ s := by
              rcases hold x hxA with h1 | h2
              · exact h1
              · exfalso
                have := h2 t (List.mem_cons_self t ts)
                omega
            exact Finset.mem_filter.mpr ⟨hxs, by omega⟩
          have hcle := Finset.card_le_card hsubc
          have hAa := hA a
          omega
        · rw [Finset.filter_insert, if_neg hin]
          exact hA a
      exact ih (insert t (s.filter (fun x => t - (W : ℤ) < x))) (insert t A)
        hpw.of_cons hlt3 hsub3 hold3 hA3

/-- C1 (amended): for sequential calls at pairwise distinct whole
second timestamps, the number of allowed calls whose call times fall
inside any half-open window of length W never exceeds the cap.  The
restriction to distinct timestamps is forced by the counterexample:
the inserted sorted-set member is the timestamp text, so calls sharing
a second collapse into one entry. -/
theorem C1_window_bound (cap W : ℕ) (ts : List ℤ) (hpw : ts.Pairwise (· < ·)) (a : ℤ) :
    Ratelimit.allowedInWindow cap W ts a ≤ cap := by
  have hOK := slideRun_windowOK cap W ts ∅ ∅ hpw (by simp) (Finset.Subset.refl ∅)
    (by simp) (by intro a2; simp)
  have h2 := hOK a
  rw [Finset.empty_union] at h2
  have hnodup : (Ratelimit.runAllowed cap W ts ∅).Nodup :=
    List.Nodup.sublist (runAllowed_sublist cap W ts ∅)
      (hpw.imp (fun h => ne_of_lt h))
  have hnodupf : ((Ratelimit.runAllowed cap W ts ∅).filter
      (fun x => a < x ∧ x ≤ a + (W : ℤ))).Nodup := hnodup.filter _
  unfold Ratelimit.allowedInWindow
  rw [← List.toFinset_card_of_nodup hnodupf, List.toFinset_filter]
  calc (Finset.filter (fun x => decide (a < x ∧ x ≤ a + (W : ℤ)) = true)
        (Ratelimit.runAllowed cap W ts ∅).toFinset).card
      = (Finset.filter (fun x => a < x ∧ x ≤ a + (W : ℤ))
          (Ratelimit.runAllowed cap W ts ∅).toFinset).card := by
        apply congrArg
        apply Finset.filter_congr
        intro x _
        simp
    _ ≤ cap := h2

/-- C1 counterexample: with cap two, three calls at the same whole
second are all allowed, because the inserted member is the timestamp
text and the repeats collapse into a single sorted-set entry; the three
allowed call times lie inside one window of length sixty, exceeding the
cap. -/
theorem C1_counterexample : 2 < Ratelimit.allowedInWindow 2 60 [0, 0, 0] (-1) := by
  decide

/-- C1 witness: cap one, calls at seconds zero and one, window from
zero. -/
theorem C1_witness :
    ((0 : ℤ) < 1) ∧ Ratelimit.allowedInWindow 1 60 [0, 1] 0 ≤ 1 :=
  ⟨by decide, C1_window_bound 1 60 [0, 1] (by decide) 0⟩

/-- Reading back the key just written. -/
theorem setStore_self (st : Session.SessionStore) (k0 : String) (v : Session.SessionRec) :
    Session.setStore st k0 v k0 = some v := by
  simp [Session.setStore]

/-- Reading any other key is unchanged by a write. -/
theorem setStore_other (st : Session.SessionStore) (k0 k : String)
    (v : Session.SessionRec) (h : k ≠ k0) :
    Session.setStore st k0 v k = st k := by
  simp [Session.setStore, h]

/-- Across one create or successful rename step, a session that was
present stays present and its change count never decreases. -/
theorem sessionStep_mono (b c : Session.SessionStore) (hstep : Session.SessionStep b c)
    (id : String) (recb : Session.SessionRec) (hb : b id = some recb) :
    ∃ recc, c id = some recc ∧
      recb.usernameChangeCount ≤ recc.usernameChangeCount := by
  cases hstep with
  | create id0 username0 maxChanges0 now0 ip0 hfresh hcap =>
    unfold Session.Create
    by_cases hid : id = id0
    · rw [hid] at hb
      rw [hb] at hfresh
      exact absurd hfresh (by simp)
    · rw [setStore_other _ _ _ _ hid]
      exact ⟨recb, hb, le_refl _⟩
  | rename st2 sid0 name0 now0 heq =>
    unfold Session.UpdateUsername at heq
    cases hsrc : b sid0 with
    | none => rw [hsrc] at heq; exact absurd heq (by simp)
    | some s0 =>
      rw [hsrc] at heq
      dsimp only at heq
      by_cases hge : s0.usernameChangeCount ≥ s0.maxUsernameChanges
      · rw [if_pos hge] at heq
        exact absurd heq (by simp)
      · rw [if_neg hge] at heq
        have hc : c = Session.setStore b sid0
            { s0 with
              username := name0
              usernameChangeCount := s0.usernameChangeCount + 1
              lastSeen := now0 } := (Except.ok.inj heq).symm
        by_cases hid : id = sid0
        · rw [hid] at hb
          rw [hsrc] at hb
          have hrec := Option.some.inj hb
          refine ⟨_, by rw [hc, hid]; exact setStore_self _ _ _, ?_⟩
          rw [← hrec]
          dsimp only
          omega
        · refine ⟨recb, ?_, le_refl _⟩
          rw [hc, setStore_other _ _ _ _ hid]
          exact hb

/-- Along any chain of create and rename steps, a present session stays
present with a nondecreasing change count. -/
theorem sessionChain_mono (st3 st4 : Session.SessionStore)
    (h : Relation.ReflTransGen Session.SessionStep st3 st4)
    (id : String) (rec : Session.SessionRec) (h3 : st3 id = some rec) :
    ∃ rec2, st4 id = some rec2 ∧
      rec.usernameChangeCount ≤ rec2.usernameChangeCount := by
  induction h with
  | refl => exact ⟨rec, h3, le_refl _⟩
  | tail hab hstep ih =>
    obtain ⟨rb, hb, hle⟩ := ih
    obtain ⟨rc, hc, hle2⟩ := sessionStep_mono _ _ hstep id rb hb
    exact ⟨rc, hc, le_trans hle hle2⟩

/-- Every store reachable through create and rename satisfies the cap
invariant on every stored record. -/
theorem reachable_cap_invariant (st3 : Session.SessionStore)
    (hreach : Session.ReachableStore st3) :
    ∀ id rec, st3 id = some rec →
      rec.usernameChangeCount ≤ rec.maxUsernameChanges := by
  induction hreach with
  | refl => intro id rec h; exact absurd h (by simp)
  | @tail b c hab hstep ih =>
    intro id rec hrec
    cases hstep with
    | create id0 username0 maxChanges0 now0 ip0 hfresh hcap =>
      unfold Session.Create at hrec
      by_cases hid : id = id0
      · rw [hid, setStore_self] at hrec
        have := Option.some.inj hrec
        rw [← this]
        simpa using hcap
      · rw [setStore_other _ _ _ _ hid] at hrec
        exact ih id rec hrec
    | rename st2 sid0 name0 now0 heq =>
      unfold Session.UpdateUsername at heq
      cases hsrc : b sid0 with
      | none => rw [hsrc] at heq; exact absurd heq (by simp)
      | some s0 =>
        rw [hsrc] at heq
        dsimp only at heq
        by_cases hge : s0.usernameChangeCount ≥ s0.maxUsernameChanges
        · rw [if_pos hge] at heq
          exact absurd heq (by simp)
        · rw [if_neg hge] at heq
          have hceq : c = Session.setStore b sid0
              { s0 with
                username := name0
                usernameChangeCount := s0.usernameChangeCount + 1
                lastSeen := now0 } := (Except.ok.inj heq).symm
          rw [hceq] at hrec
          by_cases hid : id = sid0
          · rw [hid, setStore_self] at hrec
            have hcap0 := ih sid0 s0 hsrc
            have := Option.some.inj hrec
            rw [← this]
            dsimp only
            omega
          · rw [setStore_other _ _ _ _ hid] at hrec
            exact ih id rec hrec

/-- C4: a rename succeeds exactly while the stored change count is
strictly below the cap, and then rewrites the record with the new name,
the count incremented by exactly one and last-seen refreshed; at the
cap it returns an error and the stored record stays as it was.  On
every store reachable through create and rename the change count of
every session is at most its cap, and along any such chain the count
of a session never decreases. -/
theorem C4_username_cap (st : Session.SessionStore) (sid newName : String) (now : ℤ)
    (s : Session.SessionRec) (hst : st sid = some s) :
    (s.usernameChangeCount < s.maxUsernameChanges →
      (Session.UpdateUsername st sid newName now).toOption.bind (fun st2 => st2 sid) =
        some
          { s with
            username := newName
            usernameChangeCount := s.usernameChangeCount + 1
            lastSeen := now }) ∧
    (s.usernameChangeCount ≥ s.maxUsernameChanges →
      Session.UpdateUsername st sid newName now = .error "username change limit reached") ∧
    (∀ st3, Session.ReachableStore st3 → ∀ id rec, st3 id = some rec →
      rec.usernameChangeCount ≤ rec.maxUsernameChanges) ∧
    (∀ st3 st4, Relation.ReflTransGen Session.SessionStep st3 st4 →
      ∀ id rec rec2, st3 id = some rec → st4 id = some rec2 →
      rec.usernameChangeCount ≤ rec2.usernameChangeCount) := by
  refine ⟨?_, ?_, ?_, ?_⟩
  · intro hlt
    unfold Session.UpdateUsername
    rw [hst]
    dsimp only
    rw [if_neg (by omega)]
    simp only [Except.toOption, Option.bind]
    exact setStore_self _ _ _
  · intro hge
    unfold Session.UpdateUsername
    rw [hst]
    dsimp only
    rw [if_pos hge]
  · exact reachable_cap_invariant
  · intro st3 st4 htr id rec rec2 h3 h4
    obtain ⟨rc, hc, hle⟩ := sessionChain_mono st3 st4 htr id rec h3
    rw [hc] at h4
    rw [← Option.some.inj h4]
    exact hle

/-- C4 witness: the session with zero changes and cap three is renamed
once, yielding count one. -/
theorem C4_witness :
    (Session.c4store "A" = some Session.c4rec) ∧
    (Session.c4rec.usernameChangeCount < Session.c4rec.maxUsernameChanges) ∧
    ((Session.UpdateUsername Session.c4store "A" "Alice" 5).toOption.bind
        (fun st2 => st2 "A") =
      some
        { Session.c4rec with
          username := "Alice"
          usernameChangeCount := Session.c4rec.usernameChangeCount + 1
          lastSeen := 5 }) :=
  ⟨by decide, by decide,
    (C4_username_cap Session.c4store "A" "Alice" 5 Session.c4rec (by decide)).1 (by decide)⟩

/-- Unfolding one frame of the ingress run. -/
theorem chatRun_cons (cap : ℕ) (d : Spam.Detector) (digest : String → String)
    (sid : String) (now : ℤ) (content : String) (rest : List (ℤ × String))
    (st : Websocket.IngressState) :
    Websocket.chatRun cap d digest sid ((now, content) :: rest) st =
      ((Websocket.handleChatMessage cap d digest now st sid content).1 ::
          (Websocket.chatRun cap d digest sid rest
            (Websocket.handleChatMessage cap d digest now st sid content).2).1,
        (Websocket.chatRun cap d digest sid rest
          (Websocket.handleChatMessage cap d digest now st sid content).2).2) := rfl

/-- The ingress run over an appended frame list splits at the seam. -/
theorem chatRun_append (cap : ℕ) (d : Spam.Detector) (digest : String → String)
    (sid : String) :
    ∀ (l1 l2 : List (ℤ × String)) (st : Websocket.IngressState),
      Websocket.chatRun cap d digest sid (l1 ++ l2) st =
        ((Websocket.chatRun cap d digest sid l1 st).1 ++
            (Websocket.chatRun cap d digest sid l2
              (Websocket.chatRun cap d digest sid l1 st).2).1,
          (Websocket.chatRun cap d digest sid l2
            (Websocket.chatRun cap d digest sid l1 st).2).2) := by
  intro l1
  induction l1 with
  | nil => intro l2 st; rfl
  | cons p rest ih =>
    intro l2 st
    rcases p with ⟨now, content⟩
    rw [List.cons_append, chatRun_cons, chatRun_cons, ih]
    rfl

/-- The body hello passes every content check of the spam gate, so its
validation reduces to the duplicate check. -/
theorem validate_hello (digest : String → String) (now : ℤ) (dup : Spam.DupStore)
    (sid : String) :
    Spam.ValidateMessage Websocket.defaultDetector digest now dup sid "hello" =
      Spam.checkDuplicateSpam Websocket.defaultDetector digest now dup sid "hello" := by
  unfold Spam.ValidateMessage
  rw [if_neg (by decide), if_neg (by decide), if_neg (by decide), if_neg (by decide),
    if_neg (by decide)]

/-- An admission check under the cap with only live entries in the key:
allowed, and the timestamp is inserted. -/
theorem checkSliding_allowed (t : ℤ) (F : Finset ℤ)
    (hclean : ∀ x ∈ F, t - 60 < x) (hcard : F.card < 10) :
    Ratelimit.checkSlidingWindow 10 60 t F = (true, insert t F) := by
  unfold Ratelimit.checkSlidingWindow
  dsimp only
  rw [Finset.filter_true_of_mem (fun x hx => by have := hclean x hx; omega)]
  rw [if_neg (by push_cast; omega)]

/-- An admission check at the cap with only live entries in the key:
denied, and the key is only cleaned. -/
theorem checkSliding_denied (t : ℤ) (F : Finset ℤ)
    (hclean : ∀ x ∈ F, t - 60 < x) (hcard : 10 ≤ F.card) :
    Ratelimit.checkSlidingWindow 10 60 t F = (false, F) := by
  unfold Ratelimit.checkSlidingWindow
  dsimp only
  rw [Finset.filter_true_of_mem (fun x hx => by have := hclean x hx; omega)]
  rw [if_pos (by push_cast; omega)]

/-- A chat frame that reaches a full rate-limit window is answered
RATE_LIMIT and the spam gate is never consulted. -/
theorem handleChat_ratelimit (digest : String → String) (st : Websocket.IngressState)
    (sid content : String) (t : ℤ)
    (hclean : ∀ x ∈ st.rl sid, t - 60 < x) (hcard : 10 ≤ (st.rl sid).card) :
    Websocket.handleChatMessage 10 Websocket.defaultDetector digest t st sid content =
      (.rateLimit, ⟨fun k => if k = sid then st.rl sid else st.rl k, st.dup⟩) := by
  unfold Websocket.handleChatMessage
  rw [checkSliding_denied t _ hclean hcard]
  rfl

/-- A hello frame that passes the rate check while the duplicate key is
alive is answered SPAM_DETECTED; the rate entry has already been
recorded and the duplicate key is not refreshed. -/
theorem handleChat_spam_hello (digest : String → String) (st : Websocket.IngressState)
    (sid : String) (t exp : ℤ)
    (hclean : ∀ x ∈ st.rl sid, t - 60 < x) (hcard : (st.rl sid).card < 10)
    (hdup : st.dup (sid, digest "hello") = some exp) (hexp : t < exp) :
    Websocket.handleChatMessage 10 Websocket.defaultDetector digest t st sid "hello" =
      (.spamDetected,
        ⟨fun k => if k = sid then insert t (st.rl sid) else st.rl k, st.dup⟩) := by
  unfold Websocket.handleChatMessage
  rw [checkSliding_allowed t _ hclean hcard]
  dsimp only
  rw [if_neg (by simp), validate_hello]
  unfold Spam.checkDuplicateSpam
  dsimp only
  rw [hdup]
  dsimp only
  rw [if_pos (decide_eq_true hexp)]

/-- A hello frame that passes the rate check while no duplicate key is
alive is accepted; the rate entry is recorded and the duplicate key is
set to expire one window later. -/
theorem handleChat_accept_hello (digest : String → String) (st : Websocket.IngressState)
    (sid : String) (t : ℤ)
    (hclean : ∀ x ∈ st.rl sid, t - 60 < x) (hcard : (st.rl sid).card < 10)
    (hdup : st.dup (sid, digest "hello") = none) :
    Websocket.handleChatMessage 10 Websocket.defaultDetector digest t st sid "hello" =
      (.accepted,
        ⟨fun k => if k = sid then insert t (st.rl sid) else st.rl k,
          fun k => if k = (sid, digest "hello") then some (t + 30) else st.dup k⟩) := by
  unfold Websocket.handleChatMessage
  rw [checkSliding_allowed t _ hclean hcard]
  dsimp only
  rw [if_neg (by simp), validate_hello]
  unfold Spam.checkDuplicateSpam
  dsimp only
  rw [hdup]
  rfl

/-- Repeated hello frames while the duplicate key stays alive are all
rejected as spam, while each of them still consumes a rate-limit slot. -/
theorem chatRun_spam_mid (digest : String → String) :
    ∀ (ts : List ℤ) (st : Websocket.IngressState) (exp : ℤ),
      ts.Pairwise (· < ·) →
      (∀ a ∈ ts, ∀ b ∈ ts, b - a < 60) →
      (∀ t ∈ ts, ∀ x ∈ st.rl "A", t - 60 < x ∧ x < t) →
      (st.rl "A").card + ts.length ≤ 10 →
      st.dup ("A", digest "hello") = some exp →
      (∀ t ∈ ts, t < exp) →
      (Websocket.chatRun 10 Websocket.defaultDetector digest "A"
          (ts.map (fun t => (t, "hello"))) st).1 =
        List.replicate ts.length .spamDetected ∧
      ((Websocket.chatRun 10 Websocket.defaultDetector digest "A"
          (ts.map (fun t => (t, "hello"))) st).2.rl "A" = st.rl "A" ∪ ts.toFinset) ∧
      ((Websocket.chatRun 10 Websocket.defaultDetector digest "A"
          (ts.map (fun t => (t, "hello"))) st).2.dup = st.dup) := by
  intro ts
  induction ts with
  | nil =>
    intro st exp _ _ _ _ _ _
    exact ⟨rfl, by simp [Websocket.chatRun], rfl⟩
  | cons t ts ih =>
    intro st exp hpw hspan hlive hcard hdup hexp
    have hstep := handleChat_spam_hello digest st "A" t exp
      (fun x hx => (hlive t (List.mem_cons_self t ts) x hx).1)
      (by have h2 := hcard; simp only [List.length_cons] at h2; omega)
      hdup (hexp t (List.mem_cons_self t ts))
    rw [List.map_cons, chatRun_cons, hstep]
    have htns : t ∉ st.rl "A" :=
      fun hmem => lt_irrefl t (hlive t (List.mem_cons_self t ts) t hmem).2
    have hrl2 : (⟨fun k => if k = "A" then insert t (st.rl "A") else st.rl k,
        st.dup⟩ : Websocket.IngressState).rl "A" = insert t (st.rl "A") := by
      simp
    have htail := ih ⟨fun k => if k = "A" then insert t (st.rl "A") else st.rl k, st.dup⟩
      exp hpw.of_cons
      (fun a ha b hb => hspan a (List.mem_cons_of_mem t ha) b (List.mem_cons_of_mem t hb))
      (by
        rw [hrl2]
        intro a ha x hx
        rcases Finset.mem_insert.mp hx with hx1 | hx2
        · rw [hx1]
          have h1 := hspan t (List.mem_cons_self t ts) a (List.mem_cons_of_mem t ha)
          have h2 := List.rel_of_pairwise_cons hpw ha
          omega
        · exact hlive a (List.mem_cons_of_mem t ha) x hx2)
      (by
        rw [hrl2, Finset.card_insert_of_not_mem htns]
        have h2 := hcard
        simp only [List.length_cons] at h2
        omega)
      (by exact hdup)
      (fun a ha => hexp a (List.mem_cons_of_mem t ha))
    refine ⟨?_, ?_, ?_⟩
    · rw [List.length_cons, List.replicate_succ]
      exact congrArg (List.cons _) htail.1
    · rw [htail.2.1, hrl2, List.toFinset_cons, Finset.union_insert, Finset.insert_union]
    · exact htail.2.2

/-- C3 (amended): in the ingress path, rate limit first and spam gate
second, a session sending the identical body hello at pairwise distinct
whole-second timestamps, all later ones within thirty seconds of the
first accepted send: the first send is accepted, every following send
up to the tenth is rejected SPAM_DETECTED because the duplicate key
written by the accepted send is still alive (a rejected send does not
refresh it), each of them still consuming a rate-limit slot, and the
eleventh send is rejected RATE_LIMIT by the full sixty second window;
messages with pairwise distinct content are counted against the rate
limit normally, ten accepted and the eleventh rejected RATE_LIMIT. -/
theorem C3_chat_scenario (digest : String → String) (t0 : ℤ) (mids : List ℤ) (tlast : ℤ)
    (hlen : mids.length = 9)
    (hpw : (t0 :: (mids ++ [tlast])).Pairwise (· < ·))
    (hwin : ∀ t ∈ mids ++ [tlast], t < t0 + 30) :
    ((Websocket.chatRun 10 Websocket.defaultDetector digest "A"
        ((t0 :: (mids ++ [tlast])).map (fun t => (t, "hello"))) Websocket.emptyIngress).1 =
      Websocket.Outcome.accepted ::
        (List.replicate 9 Websocket.Outcome.spamDetected ++ [Websocket.Outcome.rateLimit])) ∧
    ((Websocket.chatRun 10 Websocket.defaultDetector (fun c => c) "A"
        Websocket.c3msgs Websocket.emptyIngress).1 =
      List.replicate 10 Websocket.Outcome.accepted ++ [Websocket.Outcome.rateLimit]) := by
  refine ⟨?_, by decide⟩
  have hstep0 := handleChat_accept_hello digest Websocket.emptyIngress "A" t0
    (fun x hx => absurd hx (by simp [Websocket.emptyIngress]))
    (by simp [Websocket.emptyIngress])
    rfl
  rw [List.map_cons, chatRun_cons, hstep0]
  dsimp only
  refine congrArg (List.cons _) ?_
  have hrl1 : (⟨fun k => if k = "A" then insert t0 (Websocket.emptyIngress.rl "A")
        else Websocket.emptyIngress.rl k,
      fun k => if k = ("A", digest "hello") then some (t0 + 30)
        else Websocket.emptyIngress.dup k⟩ : Websocket.IngressState).rl "A" = {t0} := by
    simp [Websocket.emptyIngress]
  have hdup1 : (⟨fun k => if k = "A" then insert t0 (Websocket.emptyIngress.rl "A")
        else Websocket.emptyIngress.rl k,
      fun k => if k = ("A", digest "hello") then some (t0 + 30)
        else Websocket.emptyIngress.dup k⟩ : Websocket.IngressState).dup
      ("A", digest "hello") = some (t0 + 30) := by
    simp
  have hpwm : mids.Pairwise (· < ·) :=
    List.Pairwise.sublist (List.sublist_append_left mids [tlast]) hpw.of_cons
  obtain ⟨ho, hrl2, hdup2⟩ := chatRun_spam_mid digest mids _ (t0 + 30) hpwm
    (by
      intro a ha b hb
      have h1 := List.rel_of_pairwise_cons hpw (List.mem_append_left [tlast] ha)
      have h2 := hwin b (List.mem_append_left [tlast] hb)
      omega)
    (by
      intro t ht x hx
      rw [hrl1] at hx
      have hx0 := Finset.mem_singleton.mp hx
      have h1 := List.rel_of_pairwise_cons hpw (List.mem_append_left [tlast] ht)
      have h2 := hwin t (List.mem_append_left [tlast] ht)
      constructor <;> omega)
    (by rw [hrl1, hlen]; simp)
    hdup1
    (fun t ht => hwin t (List.mem_append_left [tlast] ht))
  rw [List.map_append, chatRun_append, ho]
  have htl : ([tlast].map (fun t => (t, "hello"))) = [((tlast : ℤ), "hello")] := rfl
  have hnodupm : mids.Nodup := hpwm.imp (fun h => ne_of_lt h)
  have ht0nm : t0 ∉ mids.toFinset := by
    rw [List.mem_toFinset]
    intro hmem
    exact absurd (List.rel_of_pairwise_cons hpw (List.mem_append_left [tlast] hmem))
      (lt_irrefl t0)
  have htlw := hwin tlast (List.mem_append_right mids (List.mem_singleton_self tlast))
  have hlast := handleChat_ratelimit digest
    ((Websocket.chatRun 10 Websocket.defaultDetector digest "A"
      (mids.map (fun t => (t, "hello")))
      (⟨fun k => if k = "A" then insert t0 (Websocket.emptyIngress.rl "A")
          else Websocket.emptyIngress.rl k,
        fun k => if k = ("A", digest "hello") then some (t0 + 30)
          else Websocket.emptyIngress.dup k⟩ : Websocket.IngressState)).2)
    "A" "hello" tlast
    (by
      rw [hrl2, hrl1]
      intro x hx
      rcases Finset.mem_union.mp hx with hx1 | hx2
      · have hx0 := Finset.mem_singleton.mp hx1
        omega
      · have hx0 := List.mem_toFinset.mp hx2
        have h1 := List.rel_of_pairwise_cons hpw (List.mem_append_left [tlast] hx0)
        omega)
    (by
      rw [hrl2, hrl1]
      rw [Finset.card_union_of_disjoint (Finset.disjoint_singleton_left.mpr ht0nm)]
      rw [List.toFinset_card_of_nodup hnodupm, hlen]
      simp)
  rw [htl, chatRun_cons, hlast]
  dsimp only
  rw [hlen]
  rfl

/-- C3 counterexample: hello frames at seconds 0, 29 and 31, cap 10 and
duplicate window 30.  The frame at 31 is within thirty seconds of the
earlier frame at 29, yet it is accepted: the duplicate key written at 0
expired at second 30 and the rejected frame at 29 did not refresh it,
refuting the claim that every subsequent hello within thirty seconds of
an earlier one is rejected as spam. -/
theorem C3_counterexample :
    (Websocket.chatRun 10 Websocket.defaultDetector (fun c => c) "A"
        [(0, "hello"), (29, "hello"), (31, "hello")] Websocket.emptyIngress).1 =
      [Websocket.Outcome.accepted, Websocket.Outcome.spamDetected,
        Websocket.Outcome.accepted] := by
  decide

/-- C3 witness: eleven hello frames at seconds zero through ten. -/
theorem C3_witness :
    (([1, 2, 3, 4, 5, 6, 7, 8, 9] : List ℤ).length = 9) ∧
    ((Websocket.chatRun 10 Websocket.defaultDetector (fun c => c) "A"
        (((0 : ℤ) :: (([1, 2, 3, 4, 5, 6, 7, 8, 9] : List ℤ) ++ [10])).map
          (fun t => (t, "hello"))) Websocket.emptyIngress).1 =
      Websocket.Outcome.accepted ::
        (List.replicate 9 Websocket.Outcome.spamDetected ++
          [Websocket.Outcome.rateLimit])) :=
  ⟨by decide,
    (C3_chat_scenario (fun c => c) 0 [1, 2, 3, 4, 5, 6, 7, 8, 9] 10
      (by decide) (by decide) (by decide)).1⟩

/-- A key absent from the association list has no lookup result. -/
theorem lookup_none_of_not_mem_keys (a : String) :
    ∀ (l : List (String × Websocket.HClient)), a ∉ l.map Prod.fst → l.lookup a = none := by
  intro l
  induction l with
  | nil => intro _; rfl
  | cons p t ih =>
    intro h
    rcases p with ⟨k, v⟩
    have hka : (a == k) = false := by
      rw [beq_eq_false_iff_ne]
      intro he
      exact h (by rw [List.map_cons, he]; exact List.mem_cons_self k _)
    simp only [List.lookup, hka]
    exact ih (fun hmem => h (List.mem_cons_of_mem _ hmem))

/-- Behaviour of the broadcast fan-out loop on every client class: a
matching client with a full queue is dropped from the registry and its
id recorded as closed, a matching client with room gets the frame
appended, a non-matching client is untouched, and no new keys appear. -/
theorem broadcastLoop_spec (msg : Websocket.HMessage) :
    ∀ (l : List (String × Websocket.HClient)), (l.map Prod.fst).Nodup →
      ∀ r, Websocket.broadcastLoop msg l = some r →
        (∀ p ∈ r.1, p.1 ∈ l.map Prod.fst) ∧
        (∀ sid c, (sid, c) ∈ l → Websocket.shouldReceiveMessage c msg = some true →
          Websocket.sendQueueCap ≤ c.send.length →
          r.1.lookup sid = none ∧ sid ∈ r.2) ∧
        (∀ sid c, (sid, c) ∈ l → Websocket.shouldReceiveMessage c msg = some true →
          c.send.length < Websocket.sendQueueCap →
          (sid, { c with send := c.send ++ [msg] }) ∈ r.1) ∧
        (∀ sid c, (sid, c) ∈ l → Websocket.shouldReceiveMessage c msg = some false →
          (sid, c) ∈ r.1) := by
  intro l
  induction l with
  | nil =>
    intro _ r hr
    have hr2 : r = ([], []) := by
      have : Websocket.broadcastLoop msg [] = some ([], []) := rfl
      rw [this] at hr
      exact (Option.some.inj hr).symm
    subst hr2
    refine ⟨by simp, by simp, by simp, by simp⟩
  | cons p rest ih =>
    intro hnd r hr
    rcases p with ⟨sid0, c0⟩
    have hnd2 : (rest.map Prod.fst).Nodup := (List.nodup_cons.mp (by simpa using hnd)).2
    have hsid0 : sid0 ∉ rest.map Prod.fst := (List.nodup_cons.mp (by simpa using hnd)).1
    rcases hrecv : Websocket.shouldReceiveMessage c0 msg with _ | b
    · rw [show Websocket.broadcastLoop msg ((sid0, c0) :: rest) =
          match Websocket.shouldReceiveMessage c0 msg with
          | none => none
          | some false => (Websocket.broadcastLoop msg rest).map
              (fun r => ((sid0, c0) :: r.1, r.2))
          | some true =>
            if c0.send.length < Websocket.sendQueueCap then
              (Websocket.broadcastLoop msg rest).map
                (fun r => ((sid0, { c0 with send := c0.send ++ [msg] }) :: r.1, r.2))
            else
              (Websocket.broadcastLoop msg rest).map (fun r => (r.1, sid0 :: r.2)) from rfl,
        hrecv] at hr
      exact absurd hr (by simp)
    · rw [show Websocket.broadcastLoop msg ((sid0, c0) :: rest) =
          match Websocket.shouldReceiveMessage c0 msg with
          | none => none
          | some false => (Websocket.broadcastLoop msg rest).map
              (fun r => ((sid0, c0) :: r.1, r.2))
          | some true =>
            if c0.send.length < Websocket.sendQueueCap then
              (Websocket.broadcastLoop msg rest).map
                (fun r => ((sid0, { c0 with send := c0.send ++ [msg] }) :: r.1, r.2))
            else
              (Websocket.broadcastLoop msg rest).map (fun r => (r.1, sid0 :: r.2)) from rfl,
        hrecv] at hr
      cases b
      · -- should not receive: kept untouched
        rcases hrest : Websocket.broadcastLoop msg rest with _ | r2
        · rw [hrest] at hr; exact absurd hr (by simp)
        · rw [hrest] at hr
          have hre : r = ((sid0, c0) :: r2.1, r2.2) := by
            simpa using hr.symm
          subst hre
          obtain ⟨ih1, ih2, ih3, ih4⟩ := ih hnd2 r2 hrest
          refine ⟨?_, ?_, ?_, ?_⟩
          · intro p hp
            rcases List.mem_cons.mp hp with hp1 | hp2
            · rw [hp1]; exact List.mem_cons_self _ _
            · exact List.mem_cons_of_mem _ (ih1 p hp2)
          · intro sid c hmem htrue hfull
            rcases List.mem_cons.mp hmem with h1 | h2
            · exfalso
              have h1a : c = c0 := congrArg Prod.snd h1
              rw [h1a] at htrue
              rw [hrecv] at htrue
              exact absurd (Option.some.inj htrue) (by simp)
            · have hres := ih2 sid c h2 htrue hfull
              have hne : (sid == sid0) = false := by
                rw [beq_eq_false_iff_ne]
                intro he
                exact hsid0 (he ▸ (List.mem_map.mpr ⟨(sid, c), h2, rfl⟩))
              refine ⟨?_, hres.2⟩
              simp only [List.lookup, hne]
              exact hres.1
          · intro sid c hmem htrue hroom
            rcases List.mem_cons.mp hmem with h1 | h2
            · exfalso
              have h1a : c = c0 := congrArg Prod.snd h1
              rw [h1a] at htrue
              rw [hrecv] at htrue
              exact absurd (Option.some.inj htrue) (by simp)
            · exact List.mem_cons_of_mem _ (ih3 sid c h2 htrue hroom)
          · intro sid c hmem hfalse
            rcases List.mem_cons.mp hmem with h1 | h2
            · rw [h1]
              exact List.mem_cons_self _ _
            · exact List.mem_cons_of_mem _ (ih4 sid c h2 hfalse)
      · -- should receive
        by_cases hroom : c0.send.length < Websocket.sendQueueCap
        · rw [if_pos hroom] at hr
          rcases hrest : Websocket.broadcastLoop msg rest with _ | r2
          · rw [hrest] at hr; exact absurd hr (by simp)
          · rw [hrest] at hr
            have hre : r = ((sid0, { c0 with send := c0.send ++ [msg] }) :: r2.1, r2.2) := by
              simpa using hr.symm
            subst hre
            obtain ⟨ih1, ih2, ih3, ih4⟩ := ih hnd2 r2 hrest
            refine ⟨?_, ?_, ?_, ?_⟩
            · intro p hp
              rcases List.mem_cons.mp hp with hp1 | hp2
              · rw [hp1]; exact List.mem_cons_self _ _
              · exact List.mem_cons_of_mem _ (ih1 p hp2)
            · intro sid c hmem htrue hfull
              rcases List.mem_cons.mp hmem with h1 | h2
              · exfalso
                have h1a : c = c0 := congrArg Prod.snd h1
                rw [h1a] at hfull
                omega
              · have hres := ih2 sid c h2 htrue hfull
                have hne : (sid == sid0) = false := by
                  rw [beq_eq_false_iff_ne]
                  intro he
                  exact hsid0 (he ▸ (List.mem_map.mpr ⟨(sid, c), h2, rfl⟩))
                refine ⟨?_, hres.2⟩
                simp only [List.lookup, hne]
                exact hres.1
            · intro sid c hmem htrue hroom2
              rcases List.mem_cons.mp hmem with h1 | h2
              · have h1a : sid = sid0 := congrArg Prod.fst h1
                have h1b : c = c0 := congrArg Prod.snd h1
                rw [h1a, h1b]
                exact List.mem_cons_self _ _
              · exact List.mem_cons_of_mem _ (ih3 sid c h2 htrue hroom2)
            · intro sid c hmem hfalse
              rcases List.mem_cons.mp hmem with h1 | h2
              · exfalso
                have h1a : c = c0 := congrArg Prod.snd h1
                rw [h1a] at hfalse
                rw [hrecv] at hfalse
                exact absurd (Option.some.inj hfalse) (by simp)
              · exact List.mem_cons_of_mem _ (ih4 sid c h2 hfalse)
        · rw [if_neg hroom] at hr
          rcases hrest : Websocket.broadcastLoop msg rest with _ | r2
          · rw [hrest] at hr; exact absurd hr (by simp)
          · rw [hrest] at hr
            have hre : r = (r2.1, sid0 :: r2.2) := by
              simpa using hr.symm
            subst hre
            obtain ⟨ih1, ih2, ih3, ih4⟩ := ih hnd2 r2 hrest
            refine ⟨?_, ?_, ?_, ?_⟩
            · intro p hp
              exact List.mem_cons_of_mem _ (ih1 p hp)
            · intro sid c hmem htrue hfull
              rcases List.mem_cons.mp hmem with h1 | h2
              · have h1a : sid = sid0 := congrArg Prod.fst h1
                refine ⟨?_, by rw [h1a]; exact List.mem_cons_self _ _⟩
                rw [h1a]
                apply lookup_none_of_not_mem_keys
                intro hmem2
                rcases List.mem_map.mp hmem2 with ⟨q, hq, hq2⟩
                exact hsid0 (hq2 ▸ ih1 q hq)
              · have hres := ih2 sid c h2 htrue hfull
                exact ⟨hres.1, List.mem_cons_of_mem _ hres.2⟩
            · intro sid c hmem htrue hroom2
              rcases List.mem_cons.mp hmem with h1 | h2
              · exfalso
                have h1a : c = c0 := congrArg Prod.snd h1
                rw [h1a] at hroom2
                omega
              · exact ih3 sid c h2 htrue hroom2
            · intro sid c hmem hfalse
              rcases List.mem_cons.mp hmem with h1 | h2
              · exfalso
                have h1a : c = c0 := congrArg Prod.snd h1
                rw [h1a] at hfalse
                rw [hrecv] at hfalse
                exact absurd (Option.some.inj hfalse) (by simp)
              · exact ih4 sid c h2 hfalse

/-- C7 counterexample: a hub with client A at a full queue and client B
with room, both in the cell of the message.  The broadcast closes A and
drops it from the registry and delivers the frame to B, but A is still
in ws:active afterwards, no user_left frame was enqueued for B, and the
unregister triggered later by the read loop finds A already gone and
changes nothing, so the ws:active removal and the user_left of the
claim never happen. -/
theorem C7_counterexample :
    Websocket.broadcastMessage Websocket.c7hub Websocket.c7msg = some Websocket.c7after ∧
    "A" ∈ Websocket.c7after.wsActive ∧
    Websocket.c7after.clients.lookup "B" =
      some ⟨"B", "bob", "dr5regw", 500, [Websocket.c7msg]⟩ ∧
    Websocket.unregisterClient Websocket.c7after Websocket.c7clientA =
      Websocket.c7after := by
  refine ⟨by decide, by decide, by decide, by decide⟩

/-- C7 (amended): when the hub broadcasts to a matching client whose
outbound queue is full, that client is evicted from the local registry
and its queue closed, and matching clients with room receive the frame;
however the broadcast path does not touch ws:active and dispatches no
user_left notification, and the unregister that follows finds the
evicted session absent and therefore also skips the ws:active removal
and the user_left dispatch. -/
theorem C7_broadcast_eviction (h : Websocket.HubState) (msg : Websocket.HMessage)
    (hnd : (h.clients.map Prod.fst).Nodup) (h2 : Websocket.HubState)
    (hbr : Websocket.broadcastMessage h msg = some h2) :
    (h2.wsActive = h.wsActive) ∧
    (h2.published = h.published ++ [("chat:" ++ msg.geohash, msg)]) ∧
    (∀ sid c, (sid, c) ∈ h.clients → c.sessionID = sid →
      Websocket.shouldReceiveMessage c msg = some true →
      Websocket.sendQueueCap ≤ c.send.length →
      h2.clients.lookup sid = none ∧ sid ∈ h2.closedQueues ∧
      Websocket.unregisterClient h2 c = h2) ∧
    (∀ sid c, (sid, c) ∈ h.clients → Websocket.shouldReceiveMessage c msg = some true →
      c.send.length < Websocket.sendQueueCap →
      (sid, { c with send := c.send ++ [msg] }) ∈ h2.clients) ∧
    (∀ sid c, (sid, c) ∈ h.clients → Websocket.shouldReceiveMessage c msg = some false →
      (sid, c) ∈ h2.clients) := by
  unfold Websocket.broadcastMessage at hbr
  cases hloop : Websocket.broadcastLoop msg h.clients with
  | none => rw [hloop] at hbr; exact absurd hbr (by simp)
  | some r =>
    rw [hloop] at hbr
    have h2eq : h2 = ⟨r.1, h.wsActive, h.closedQueues ++ r.2,
        h.published ++ [("chat:" ++ msg.geohash, msg)]⟩ := by
      simpa using hbr.symm
    subst h2eq
    obtain ⟨s1, s2, s3, s4⟩ := broadcastLoop_spec msg h.clients hnd r hloop
    refine ⟨rfl, rfl, ?_, ?_, ?_⟩
    · intro sid c hmem hkey htrue hfull
      obtain ⟨hl, hc⟩ := s2 sid c hmem htrue hfull
      refine ⟨hl, List.mem_append_right _ hc, ?_⟩
      unfold Websocket.unregisterClient
      rw [hkey]
      rw [show (⟨r.1, h.wsActive, h.closedQueues ++ r.2,
          h.published ++ [("chat:" ++ msg.geohash, msg)]⟩ :
          Websocket.HubState).clients = r.1 from rfl, hl]
    · exact fun sid c hmem ht hr => s3 sid c hmem ht hr
    · exact fun sid c hmem hf => s4 sid c hmem hf

/-- C7 witness: the two-client hub of the counterexample run through
the amended statement. -/
theorem C7_witness :
    (Websocket.c7after.wsActive = Websocket.c7hub.wsActive) ∧
    (Websocket.c7after.clients.lookup "A" = none) ∧
    ("A" ∈ Websocket.c7after.closedQueues) ∧
    (Websocket.unregisterClient Websocket.c7after Websocket.c7clientA =
      Websocket.c7after) ∧
    (("B", { Websocket.c7clientB with
        send := Websocket.c7clientB.send ++ [Websocket.c7msg] }) ∈
      Websocket.c7after.clients) := by
  have H := C7_broadcast_eviction Websocket.c7hub Websocket.c7msg (by decide)
    Websocket.c7after (by decide)
  have HA := H.2.2.1 "A" Websocket.c7clientA (by decide) (by decide) (by decide) (by decide)
  exact ⟨H.1, HA.1, HA.2.1, HA.2.2,
    H.2.2.2.1 "B" Websocket.c7clientB (by decide) (by decide) (by decide)⟩
